import Mathlib

/-!
Verification of the orsted single-node Kubernetes bootstrap pipeline
(src/main.go) against its natural-language specification.

The pipeline is embedded shallowly: every external collaborator (command
runner, cluster API client, chart installer, filesystem, network dial) is an
oracle field of an `Env` record, and the straight-line body of `main` is a
list of stage functions executed in order with fail-fast abort.  Each stage
returns the list of collaborator calls it performed (the trace) together with
its result: continue with a new pipeline state, abort fatally with the logged
lines (log.Fatalf exits with a non-zero status), or hang forever (the
unbounded readiness loop never finding a ready cluster).
-/

namespace Orsted

/-- Go error values are modelled by their message string. -/
abbrev GoError := String

/-- Pod objects returned by the pod-listing operation; only their presence
matters to the code (`len(pods.Items)`), but we keep a name field. -/
structure Pod where
  name : String
deriving DecidableEq

/-- Mirror of repo.Entry (src/main.go lines 94-129): a named chart
repository. -/
structure RepoEntry where
  Name : String
  URL : String
deriving DecidableEq

/-- Mirror of helmclient.ChartSpec as used in src/main.go: release name,
chart, target namespace, CRD upgrade flag, wait semantics, timeout (the code
always passes whole minutes), version and raw value-override payload.  Fields
the Go literals omit take Go zero values at each use site. -/
structure ChartSpec where
  ReleaseName : String
  ChartName : String
  Namespace : String
  UpgradeCRDs : Bool
  Wait : Bool
  WaitForJobs : Bool
  TimeoutMinutes : Nat
  Version : String
  ValuesYaml : String
deriving DecidableEq

/-- One collaborator invocation, recorded in the run's trace. -/
inductive Call where
  | runCmd : String → List String → Call
  | buildConfig : String → Call
  | newForConfig : Call
  | listPods : String → Nat → Call
  | sleep : Nat → Call
  | readFile : String → Call
  | newHelmClient : String → Call
  | addRepo : String → RepoEntry → Call
  | installOrUpgrade : String → ChartSpec → Call
  | installChart : String → ChartSpec → Call
  | createNamespace : String → List (String × String) → Call
  | dialUDP : String → Call
deriving DecidableEq

/-- Responses of every external collaborator the pipeline talks to.  The
pod-listing response is indexed by the attempt number (the readiness loop is
the only caller); `fuel` bounds the readiness loop in the embedding, standing
for how long we are willing to observe the (unbounded) loop. -/
structure Env where
  run : String → List String → String × Option GoError
  buildConfig : Except GoError Unit
  newForConfig : Except GoError Unit
  pods : Nat → Except GoError (List Pod)
  fuel : Nat
  readFile : String → Except GoError String
  newHelmClient : String → Except GoError Unit
  addRepo : String → RepoEntry → Option GoError
  installOrUpgrade : String → ChartSpec → Option GoError
  installChart : String → ChartSpec → Option GoError
  createNamespace : String → List (String × String) → Option GoError
  dial : Except GoError String

/-- Mutable process state threaded through the stages: the lazily cached
admin kubeconfig blob (src/main.go line 290, initially the empty slice) and
the discovered default IP (line 135). -/
structure St where
  kubeConfig : String
  defaultIp : String
deriving DecidableEq

/-- Result of one stage: continue, abort via log.Fatalf (non-zero exit) with
the logged lines, or loop forever. -/
inductive StageRes where
  | ok : St → StageRes
  | fatal : List String → StageRes
  | hung : StageRes
deriving DecidableEq

/-- Outcome of the whole run. -/
inductive Outcome where
  | success : Outcome
  | fatal : List String → Outcome
  | hung : Outcome
deriving DecidableEq

abbrev StageFn := Env → St → List Call × StageRes

/-! Command-line constants of src/main.go.  The shell commands are verbatim
from the source (lines 40, 49, 78, 86, 206, 282); \x27 is the single-quote
character. -/

def shellEnableArgs : List String := ["-c", "systemctl enable --now kubelet crio"]

def kubeadmInitArgs : List String := ["init", "--config", "/root/clusterconfig.yaml"]

def adminConfPath : String := "/etc/kubernetes/admin.conf"

def untaintArgs : List String :=
  ["-c", "kubectl taint nodes $(hostname -f) node-role.kubernetes.io/control-plane=master:NoSchedule- --kubeconfig=\x27/etc/kubernetes/admin.conf\x27"]

def gatewayCRDArgs : List String :=
  ["-c", "kubectl apply --kubeconfig=\x27/etc/kubernetes/admin.conf\x27 -f https://raw.githubusercontent.com/kubernetes-sigs/gateway-api/v0.7.1/config/crd/standard/gateway.networking.k8s.io_gatewayclasses.yaml -f https://raw.githubusercontent.com/kubernetes-sigs/gateway-api/v0.7.1/config/crd/standard/gateway.networking.k8s.io_gateways.yaml -f https://raw.githubusercontent.com/kubernetes-sigs/gateway-api/v0.7.1/config/crd/standard/gateway.networking.k8s.io_httproutes.yaml -f https://raw.githubusercontent.com/kubernetes-sigs/gateway-api/v0.7.1/config/crd/standard/gateway.networking.k8s.io_referencegrants.yaml -f https://raw.githubusercontent.com/kubernetes-sigs/gateway-api/v0.7.1/config/crd/experimental/gateway.networking.k8s.io_tlsroutes.yaml"]

def rookOverridesArgs : List String :=
  ["-c", "kubectl apply --kubeconfig=\x27/etc/kubernetes/admin.conf\x27 -f /root/rook-overrides.yaml"]

def defaultPoliciesArgs : List String :=
  ["-c", "kubectl apply --kubeconfig=\x27/etc/kubernetes/admin.conf\x27 -f /root/default-policies.yaml"]

/-! Chart repositories (src/main.go lines 94-129). -/

def ciliumRepo : RepoEntry := { Name := "cilium", URL := "https://helm.cilium.io/" }

def kyvernoRepo : RepoEntry := { Name := "kyverno", URL := "https://kyverno.github.io/kyverno/" }

def rookRepo : RepoEntry := { Name := "rook", URL := "https://charts.rook.io/release" }

def gitopsRepo : RepoEntry := { Name := "gitops", URL := "https://helm.gitops.weave.works/" }

/-! Embedded value payloads.  The go:embed sources values/cilium.yaml,
values/rook-op.yaml and values/weave.yaml are not part of src/. -/

/-- Modelled from the spec: the embedded values/cilium.yaml payload is
missing from src/; per spec section 6 it is the one template that contains a
substitution placeholder (the token K8SHOST) for the discovered host address,
so it is modelled as a template holding that placeholder exactly once. -/
def CiliumYaml : String :=
  "kubeProxyReplacement: strict\nk8sServiceHost: K8SHOST\nk8sServicePort: 6443\n"

/-- Modelled from the spec: the embedded values/rook-op.yaml payload is
missing from src/; the spec treats the payloads as inert data and no claim
inspects this one, so a stand-in value is used. -/
def RookOperatorYaml : String := "rook-operator-values"

/-- Stand-in for the embedded values/rook-cluster.yaml payload; the spec
treats the payloads as inert data and no claim inspects its content. -/
def CephClusterYaml : String := "rook-cluster-values"

/-- Modelled from the spec: the embedded values/weave.yaml payload is missing
from src/; inert data, no claim inspects it. -/
def GitOpsYaml : String := "weave-gitops-values"

/-! Mirror of Go strings.Replace with a positive replacement budget: scan for
the first occurrence of the pattern, splice the replacement in, continue
after it with the budget decreased.  (Go's special case of an empty pattern,
which inserts between characters, never arises here: the only call site uses
the pattern K8SHOST.) -/

/-- Index of the first occurrence of `pat` in `s`, if any. -/
def firstIdx (pat : List Char) : List Char → Option Nat
  | [] => if pat.isEmpty then some 0 else none
  | c :: t => if pat.isPrefixOf (c :: t) then some 0 else (firstIdx pat t).map (· + 1)

/-- Replace up to `n` occurrences of `pat` in `s` by `new`, leftmost first,
as Go strings.Replace does for a non-empty pattern. -/
def goReplace (s pat new : List Char) : Nat → List Char
  | 0 => s
  | n + 1 =>
    match firstIdx pat s with
    | none => s
    | some i => s.take i ++ new ++ goReplace (s.drop (i + pat.length)) pat new n

/-- String wrapper of `goReplace`, the shape of the call
strings.Replace(CiliumYaml, "K8SHOST", defaultIp, 1) at src/main.go line 148. -/
def goReplaceStr (s pat new : String) (n : Nat) : String :=
  { data := goReplace s.data pat.data new.data n }

/-! Chart specs (src/main.go lines 139-149, 172-180, 217-226, 233-242,
267-275). -/

def ciliumSpec (ip : String) : ChartSpec :=
  { ReleaseName := "cilium", ChartName := "cilium/cilium", Namespace := "kube-system",
    UpgradeCRDs := true, Wait := true, WaitForJobs := true, TimeoutMinutes := 7,
    Version := "v1.14.0", ValuesYaml := goReplaceStr CiliumYaml "K8SHOST" ip 1 }

def kyvernoSpec : ChartSpec :=
  { ReleaseName := "kyverno", ChartName := "kyverno/kyverno", Namespace := "kyverno",
    UpgradeCRDs := true, Wait := true, WaitForJobs := true, TimeoutMinutes := 4,
    Version := "", ValuesYaml := "" }

def rookOpSpec : ChartSpec :=
  { ReleaseName := "rook-ceph", ChartName := "rook/rook-ceph", Namespace := "rook-ceph",
    UpgradeCRDs := true, Wait := true, WaitForJobs := true, TimeoutMinutes := 2,
    Version := "", ValuesYaml := RookOperatorYaml }

def rookClusterSpec : ChartSpec :=
  { ReleaseName := "rook-ceph-cluster", ChartName := "rook/rook-ceph-cluster",
    Namespace := "rook-ceph", UpgradeCRDs := true, Wait := true, WaitForJobs := true,
    TimeoutMinutes := 5, Version := "", ValuesYaml := CephClusterYaml }

def gitopsSpec : ChartSpec :=
  { ReleaseName := "weave-gitops", ChartName := "gitops/weave-gitops",
    Namespace := "weave-gitops", UpgradeCRDs := false, Wait := true, WaitForJobs := true,
    TimeoutMinutes := 15, Version := "", ValuesYaml := GitOpsYaml }

def rookNsLabels : List (String × String) := [("pod-security.kubernetes.io/enforce", "privileged")]

/-! Helm-client plumbing (src/main.go lines 290-330). -/

/-- Result of the helm helper functions: a fatal abort raised inside
initKubeConf, an error value returned to the caller, or success. -/
inductive HelmRes where
  | fatal : List String → HelmRes
  | err : GoError → HelmRes
  | ok : St → HelmRes

/-- Mirror of initKubeConf (src/main.go lines 292-300): read the admin
kubeconfig into the process-wide cache when the cache is empty, aborting
fatally when the read fails. -/
def initKubeConf (env : Env) (st : St) : List Call × Except (List String) St :=
  if st.kubeConfig = "" then
    match env.readFile adminConfPath with
    | Except.error e =>
      ([Call.readFile adminConfPath], Except.error ["Failed to read kubeconfig file: " ++ e])
    | Except.ok kc =>
      ([Call.readFile adminConfPath], Except.ok { st with kubeConfig := kc })
  else ([], Except.ok st)

/-- Mirror of helmClientForNs (src/main.go lines 302-317): ensure the cached
kubeconfig, then build a namespaced helm client from it; a client-construction
error is returned, not fatal. -/
def helmClientForNs (env : Env) (st : St) (ns : String) : List Call × HelmRes :=
  match initKubeConf env st with
  | (tr, Except.error lg) => (tr, HelmRes.fatal lg)
  | (tr, Except.ok st1) =>
    match env.newHelmClient ns with
    | Except.error e => (tr ++ [Call.newHelmClient ns], HelmRes.err e)
    | Except.ok _ => (tr ++ [Call.newHelmClient ns], HelmRes.ok st1)

/-- Mirror of InstallSpecWithNSClient (src/main.go lines 319-330): build a
client for the namespace and run the plain InstallChart operation, returning
any error to the caller. -/
def InstallSpecWithNSClient (env : Env) (st : St) (ns : String) (spec : ChartSpec) :
    List Call × HelmRes :=
  match helmClientForNs env st ns with
  | (tr, HelmRes.ok st1) =>
    match env.installChart ns spec with
    | some e => (tr ++ [Call.installChart ns spec], HelmRes.err e)
    | none => (tr ++ [Call.installChart ns spec], HelmRes.ok st1)
  | (tr, HelmRes.fatal lg) => (tr, HelmRes.fatal lg)
  | (tr, HelmRes.err e) => (tr, HelmRes.err e)

/-! The stages of main (src/main.go lines 36-288), in source order.  Shared
shapes (run a command / create a namespace / install-or-upgrade a chart and
abort fatally on error) are factored into stage builders; each stage names
its source lines. -/

/-- Stage builder for a RunCommand invocation whose error branch logs the
given lines and aborts. -/
def cmdStage (prog : String) (args : List String)
    (mkLog : String → GoError → List String) : StageFn := fun env st =>
  match env.run prog args with
  | (out, some e) => ([Call.runCmd prog args], StageRes.fatal (mkLog out e))
  | (_, none) => ([Call.runCmd prog args], StageRes.ok st)

/-- Stage builder for a namespace-creation call: any error aborts fatally
with the stage's log line; no error is treated specially. -/
def nsStage (name : String) (labels : List (String × String)) (logPre : String) :
    StageFn := fun env st =>
  match env.createNamespace name labels with
  | some e => ([Call.createNamespace name labels], StageRes.fatal [logPre ++ e])
  | none => ([Call.createNamespace name labels], StageRes.ok st)

/-- Stage builder for an InstallOrUpgradeChart call on an existing client
handle (identified by the namespace it was built for). -/
def installOUStage (clientNs : String) (mkSpec : St → ChartSpec) (logPre : String) :
    StageFn := fun env st =>
  match env.installOrUpgrade clientNs (mkSpec st) with
  | some e => ([Call.installOrUpgrade clientNs (mkSpec st)], StageRes.fatal [logPre ++ e])
  | none => ([Call.installOrUpgrade clientNs (mkSpec st)], StageRes.ok st)

/-- Stage builder for the InstallSpecWithNSClient call sites (lines 183 and
277), which abort fatally when the helper returns an error. -/
def installNSStage (ns : String) (spec : ChartSpec) (logPre : String) : StageFn :=
  fun env st =>
  match InstallSpecWithNSClient env st ns spec with
  | (tr, HelmRes.fatal lg) => (tr, StageRes.fatal lg)
  | (tr, HelmRes.err e) => (tr, StageRes.fatal [logPre ++ e])
  | (tr, HelmRes.ok st1) => (tr, StageRes.ok st1)

/-- Lines 39-46: enable and start kubelet and cri-o. -/
def stEnableKubelet : StageFn :=
  cmdStage "bash" shellEnableArgs
    (fun out e => ["Systemctl output: " ++ out, "Unable to enable kubelet and crio: " ++ e])

/-- Lines 48-53: kubeadm init from the static cluster config. -/
def stKubeadmInit : StageFn :=
  cmdStage "kubeadm" kubeadmInitArgs
    (fun out e => ["Failed to run kubeadm: " ++ e, "Kubeadm output: " ++ out])

/-- Lines 55-63: parse the admin kubeconfig and build the typed cluster
client. -/
def stBuildClient : StageFn := fun env st =>
  match env.buildConfig with
  | Except.error e =>
    ([Call.buildConfig adminConfPath], StageRes.fatal ["Failed to parse kubernetes config: " ++ e])
  | Except.ok _ =>
    match env.newForConfig with
    | Except.error e =>
      ([Call.buildConfig adminConfPath, Call.newForConfig],
        StageRes.fatal ["Failed to create kubernetes client: " ++ e])
    | Except.ok _ => ([Call.buildConfig adminConfPath, Call.newForConfig], StageRes.ok st)

/-- Ready test of the loop at lines 65-75: a transport error or an empty item
list means not yet ready. -/
def podsReady : Except GoError (List Pod) → Bool
  | Except.ok pods => !pods.isEmpty
  | Except.error _ => false

/-- Readiness loop body (lines 65-75), observed for `fuel` iterations: list
the kube-system pods, stop when the listing is non-empty, otherwise sleep ten
seconds and try again.  Returns the calls made and whether readiness was
reached within the observation budget. -/
def pollAux (pods : Nat → Except GoError (List Pod)) : Nat → Nat → List Call × Bool
  | 0, _ => ([], false)
  | f + 1, a =>
    if podsReady (pods a) then
      ([Call.listPods "kube-system" a], true)
    else
      (Call.listPods "kube-system" a :: Call.sleep 10 :: (pollAux pods f (a + 1)).1,
        (pollAux pods f (a + 1)).2)

/-- Lines 65-75 as a stage: the loop either reaches readiness and the
pipeline continues, or it is still looping when the observation budget ends
(the code has no timeout, retry cap, or in-loop fatal exit). -/
def stReadinessPoll : StageFn := fun env st =>
  ((pollAux env.pods env.fuel 0).1,
    if (pollAux env.pods env.fuel 0).2 then StageRes.ok st else StageRes.hung)

/-- Lines 77-82: remove the control-plane scheduling taint. -/
def stUntaint : StageFn :=
  cmdStage "bash" untaintArgs
    (fun out e => ["Failed to clear master node taint: " ++ e, "Kubectl output: " ++ out])

/-- Lines 84-90: apply the Gateway API CRDs.  The error branch logs only the
captured kubectl output, not the error value. -/
def stGatewayCRDs : StageFn :=
  cmdStage "bash" gatewayCRDArgs
    (fun out _ => ["Failed to apply gateway CRDs", "Kubectl output: " ++ out])

/-- Lines 92-133: build the helm client for namespace default and register
the four chart repositories on it, aborting fatally on the first failure. -/
def stAddRepos : StageFn := fun env st =>
  match helmClientForNs env st "default" with
  | (tr, HelmRes.fatal lg) => (tr, StageRes.fatal lg)
  | (tr, HelmRes.err e) => (tr, StageRes.fatal ["Failed to create helm client: " ++ e])
  | (tr, HelmRes.ok st1) =>
    match env.addRepo "default" ciliumRepo with
    | some e =>
      (tr ++ [Call.addRepo "default" ciliumRepo],
        StageRes.fatal ["Failed to add Cilium Helm chart: " ++ e])
    | none =>
      match env.addRepo "default" kyvernoRepo with
      | some e =>
        (tr ++ [Call.addRepo "default" ciliumRepo, Call.addRepo "default" kyvernoRepo],
          StageRes.fatal ["Failed to add Kyverno Helm chart: " ++ e])
      | none =>
        match env.addRepo "default" rookRepo with
        | some e =>
          (tr ++ [Call.addRepo "default" ciliumRepo, Call.addRepo "default" kyvernoRepo,
              Call.addRepo "default" rookRepo],
            StageRes.fatal ["Failed to add Rook Ceph Helm chart: " ++ e])
        | none =>
          match env.addRepo "default" gitopsRepo with
          | some e =>
            (tr ++ [Call.addRepo "default" ciliumRepo, Call.addRepo "default" kyvernoRepo,
                Call.addRepo "default" rookRepo, Call.addRepo "default" gitopsRepo],
              StageRes.fatal ["Failed to add Weave GitOps Helm chart: " ++ e])
          | none =>
            (tr ++ [Call.addRepo "default" ciliumRepo, Call.addRepo "default" kyvernoRepo,
                Call.addRepo "default" rookRepo, Call.addRepo "default" gitopsRepo],
              StageRes.ok st1)

/-- Lines 135-136 with GetDefaultIP (lines 341-351): dial out to discover the
host's default IP, aborting fatally when the dial fails. -/
def stDiscoverIP : StageFn := fun env st =>
  match env.dial with
  | Except.error e => ([Call.dialUDP "1.1.1.1:80"], StageRes.fatal ["Failed to get default ip: " ++ e])
  | Except.ok ip => ([Call.dialUDP "1.1.1.1:80"], StageRes.ok { st with defaultIp := ip })

/-- Lines 138-153: install-or-upgrade the Cilium chart through the client
built for namespace default, with the host address templated into the
values payload. -/
def stDeployCilium : StageFn :=
  installOUStage "default" (fun st => ciliumSpec st.defaultIp) "Failed to install Cilium: "

/-- Lines 155-170: create the kyverno namespace. -/
def stKyvernoNs : StageFn := nsStage "kyverno" [] "Failed to create kyverno namespace: "

/-- Lines 172-185: install the Kyverno chart via InstallSpecWithNSClient. -/
def stDeployKyverno : StageFn := installNSStage "kyverno" kyvernoSpec "Failed to install Kyverno: "

/-- Lines 187-204: create the rook-ceph namespace with the privileged
pod-security label. -/
def stRookNs : StageFn := nsStage "rook-ceph" rookNsLabels "Failed to create rook-ceph namespace: "

/-- Lines 206-210: apply the rook override manifests. -/
def stRookOverrides : StageFn :=
  cmdStage "bash" rookOverridesArgs
    (fun out e => ["Failed to create rook overrides: " ++ e, "Kubectl output: " ++ out])

/-- Lines 212-231: build the rook-ceph helm client (its error branch logs a
fixed line without the error value) and install-or-upgrade the operator
chart. -/
def stRookOperator : StageFn := fun env st =>
  match helmClientForNs env st "rook-ceph" with
  | (tr, HelmRes.fatal lg) => (tr, StageRes.fatal lg)
  | (tr, HelmRes.err _) => (tr, StageRes.fatal ["Failed to create rook helm client"])
  | (tr, HelmRes.ok st1) =>
    match env.installOrUpgrade "rook-ceph" rookOpSpec with
    | some e =>
      (tr ++ [Call.installOrUpgrade "rook-ceph" rookOpSpec],
        StageRes.fatal ["Failed to install rook-ceph operator: " ++ e])
    | none => (tr ++ [Call.installOrUpgrade "rook-ceph" rookOpSpec], StageRes.ok st1)

/-- Lines 233-247: install-or-upgrade the rook-ceph-cluster chart on the same
rook-ceph client. -/
def stRookCluster : StageFn :=
  installOUStage "rook-ceph" (fun _ => rookClusterSpec) "Failed to install rook-ceph-cluster: "

/-- Lines 249-265: create the weave-gitops namespace. -/
def stGitopsNs : StageFn := nsStage "weave-gitops" [] "Failed to create weave-gitops namespace: "

/-- Lines 267-279: install the Weave GitOps chart via InstallSpecWithNSClient. -/
def stDeployGitops : StageFn :=
  installNSStage "weave-gitops" gitopsSpec "Failed to install weave-gitops: "

/-- Lines 281-286: apply the default Kyverno policy manifests. -/
def stDefaultPolicies : StageFn :=
  cmdStage "bash" defaultPoliciesArgs
    (fun out e => ["Failed to install default kyverno policies: " ++ e, "Kubectl output: " ++ out])

/-- The fixed list of pipeline stages, in the source order of main
(src/main.go lines 36-288). -/
def stages : List StageFn :=
  [stEnableKubelet, stKubeadmInit, stBuildClient, stReadinessPoll, stUntaint,
   stGatewayCRDs, stAddRepos, stDiscoverIP, stDeployCilium, stKyvernoNs,
   stDeployKyverno, stRookNs, stRookOverrides, stRookOperator, stRookCluster,
   stGitopsNs, stDeployGitops, stDefaultPolicies]

/-- Run a list of stages in order with fail-fast abort: the first fatal or
hung stage ends the run, later stages are never invoked. -/
def runStages : List StageFn → Env → St → List Call × StageRes
  | [], _, st => ([], StageRes.ok st)
  | s :: rest, env, st =>
    match s env st with
    | (tr, StageRes.ok st1) => (tr ++ (runStages rest env st1).1, (runStages rest env st1).2)
    | (tr, StageRes.fatal lg) => (tr, StageRes.fatal lg)
    | (tr, StageRes.hung) => (tr, StageRes.hung)

/-- Initial process state: empty kubeconfig cache, no discovered IP. -/
def initialSt : St := { kubeConfig := "", defaultIp := "" }

def toOutcome : StageRes → Outcome
  | StageRes.ok _ => Outcome.success
  | StageRes.fatal lg => Outcome.fatal lg
  | StageRes.hung => Outcome.hung

/-- The whole run of main: the calls performed, and success (exit 0), a fatal
log.Fatalf abort (non-zero exit), or an unterminated readiness loop. -/
def runMain (env : Env) : List Call × Outcome :=
  ((runStages stages env initialSt).1, toOutcome (runStages stages env initialSt).2)

/-! Specification-side definitions: the canonical successful trace, call
discriminators, and the concrete environments used as witnesses. -/

/-- Calls made by the readiness loop when attempts `a, a+1, ..., a+N-1` are
not ready and attempt `a+N` is: one pod listing per attempt, with the fixed
ten-second sleep between consecutive attempts and none after the last. -/
def pollTraceFrom : Nat → Nat → List Call
  | a, 0 => [Call.listPods "kube-system" a]
  | a, n + 1 => Call.listPods "kube-system" a :: Call.sleep 10 :: pollTraceFrom (a + 1) n

/-- Canonical calls before the repository registrations: runtime/kubelet
start, control-plane init, client construction, readiness poll, taint
removal, Gateway CRD apply, then helm-client construction (with the one
kubeconfig read) and the four repository registrations. -/
def canonPreA : List Call :=
  [Call.runCmd "bash" shellEnableArgs, Call.runCmd "kubeadm" kubeadmInitArgs,
   Call.buildConfig adminConfPath, Call.newForConfig]

def canonPreB : List Call :=
  [Call.runCmd "bash" untaintArgs, Call.runCmd "bash" gatewayCRDArgs,
   Call.readFile adminConfPath, Call.newHelmClient "default",
   Call.addRepo "default" ciliumRepo, Call.addRepo "default" kyvernoRepo,
   Call.addRepo "default" rookRepo, Call.addRepo "default" gitopsRepo]

def canonPre (N : Nat) : List Call := canonPreA ++ pollTraceFrom 0 N ++ canonPreB

/-- The kubeconfig cache re-read that happens at a helm-client construction
exactly when the cached blob is the empty string. -/
def mayRead (kc : String) : List Call :=
  if kc = "" then [Call.readFile adminConfPath] else []

/-- Canonical calls from host-address discovery onwards: CNI install,
policy-engine namespace and install, storage namespace, overrides, operator
and cluster installs, GitOps namespace and install, default policies.  `ip`
is the discovered host address and `kc` the cached kubeconfig blob. -/
def canonPost (ip kc : String) : List Call :=
  [Call.dialUDP "1.1.1.1:80", Call.installOrUpgrade "default" (ciliumSpec ip),
   Call.createNamespace "kyverno" []]
  ++ mayRead kc
  ++ [Call.newHelmClient "kyverno", Call.installChart "kyverno" kyvernoSpec,
      Call.createNamespace "rook-ceph" rookNsLabels, Call.runCmd "bash" rookOverridesArgs]
  ++ mayRead kc
  ++ [Call.newHelmClient "rook-ceph", Call.installOrUpgrade "rook-ceph" rookOpSpec,
      Call.installOrUpgrade "rook-ceph" rookClusterSpec, Call.createNamespace "weave-gitops" []]
  ++ mayRead kc
  ++ [Call.newHelmClient "weave-gitops", Call.installChart "weave-gitops" gitopsSpec,
      Call.runCmd "bash" defaultPoliciesArgs]

/-- The canonical trace of a successful run, parameterized by the number N of
not-ready poll attempts, the discovered host address and the cached
kubeconfig blob. -/
def canonicalTrace (N : Nat) (ip kc : String) : List Call := canonPre N ++ canonPost ip kc

def isAddRepo : Call → Bool
  | Call.addRepo _ _ => true
  | _ => false

def isChartInstall : Call → Bool
  | Call.installOrUpgrade _ _ => true
  | Call.installChart _ _ => true
  | _ => false

def isListPods : Call → Bool
  | Call.listPods _ _ => true
  | _ => false

/-- Shape of every chart-installer install call the pipeline can emit: the
Cilium chart goes install-or-upgrade through the client built for namespace
default, the rook charts go install-or-upgrade through the rook-ceph client,
and the Kyverno and Weave GitOps charts go through the plain install
operation of a client built for their own namespace. -/
def InstallShape : Call → Prop
  | Call.installOrUpgrade ns s =>
      (ns = "default" ∧ ∃ ip, s = ciliumSpec ip) ∨
      (ns = "rook-ceph" ∧ (s = rookOpSpec ∨ s = rookClusterSpec))
  | Call.installChart ns s =>
      (ns = "kyverno" ∧ s = kyvernoSpec) ∨ (ns = "weave-gitops" ∧ s = gitopsSpec)
  | _ => True

/-- Potential of the kubeconfig cache: one pending file read while the cache
is empty, none afterwards. -/
def kcPot (st : St) : Nat := if st.kubeConfig = "" then 1 else 0

/-! Model of the Command Runner (src/main.go lines 332-339).  A process is an
oracle behavior: a launch result, the ordered interleaved sequence of writes
it makes to its standard output and standard error, and its exit code.
RunCommand points both cmd.Stdout and cmd.Stderr at one strings.Builder, so
every write lands in the single buffer in order; cmd.Run returns a non-nil
error exactly for a launch failure or a non-zero exit. -/

inductive StdTag where
  | stdout : StdTag
  | stderr : StdTag
deriving DecidableEq

structure ProcBehavior where
  launch : Option GoError
  writes : List (StdTag × String)
  exitCode : Nat

/-- Mirror of RunCommand (src/main.go lines 332-339) on a process behavior:
a failed launch produced no writes; otherwise the single shared builder has
received every write of either stream in order, and the error reflects the
exit code. -/
def RunCommand (p : ProcBehavior) : String × Option GoError :=
  match p.launch with
  | some e => ("", some e)
  | none =>
    let out := p.writes.foldl (fun acc w => acc ++ w.2) ""
    (out, if p.exitCode = 0 then none else some ("exit status " ++ toString p.exitCode))

/-- RunCommand over a system oracle giving the behavior of each program name
and argument list. -/
def RunCommandWith (sys : String → List String → ProcBehavior) (command : String)
    (args : List String) : String × Option GoError :=
  RunCommand (sys command args)

/-- The merge of both output streams: every write of the process, in order,
regardless of stream, or nothing when the process never launched. -/
def combinedOutput (p : ProcBehavior) : String :=
  match p.launch with
  | some _ => ""
  | none => String.join (p.writes.map Prod.snd)

/-! Concrete template pieces for the host-address substitution claim. -/

/-- Characters that can occur in a textual IP address (IPv4 digits and dots,
IPv6 hex digits and colons); the placeholder token K8SHOST contains the
letter K, which is not one of them. -/
def ipChars : String := "0123456789.abcdef:"

def ciliumPre : String := "kubeProxyReplacement: strict\nk8sServiceHost: "

def ciliumSuf : String := "\nk8sServicePort: 6443\n"

/-! Concrete environments for witnesses and counterexamples. -/

/-- Environment in which every collaborator succeeds at once: first pod
listing is non-empty, the kubeconfig file holds a non-empty blob, the
discovered address is 10.0.0.5. -/
def envAllOk : Env :=
  { run := fun _ _ => ("", none)
  , buildConfig := Except.ok ()
  , newForConfig := Except.ok ()
  , pods := fun _ => Except.ok [{ name := "etcd-node" }]
  , fuel := 5
  , readFile := fun _ => Except.ok "apiVersion: v1"
  , newHelmClient := fun _ => Except.ok ()
  , addRepo := fun _ _ => none
  , installOrUpgrade := fun _ _ => none
  , installChart := fun _ _ => none
  , createNamespace := fun _ _ => none
  , dial := Except.ok "10.0.0.5" }

/-- Environment whose very first stage (systemctl enable) fails. -/
def envFailEnable : Env :=
  { envAllOk with
    run := fun p a =>
      if p = "bash" ∧ a = shellEnableArgs then ("boom-out", some "boom") else ("", none) }

/-- Environment whose pod listing fails with a transport error, then returns
an empty set, then succeeds with a non-empty set. -/
def envPollN : Env :=
  { envAllOk with
    pods := fun n =>
      if n = 0 then Except.error "connection refused"
      else if n = 1 then Except.ok []
      else Except.ok [{ name := "etcd-node" }] }

/-- Environment whose kubeconfig file exists but is empty: the cache guard
(len == 0) then never considers the cache initialized. -/
def envEmptyKc : Env := { envAllOk with readFile := fun _ => Except.ok "" }

/-- Environment whose namespace creation always reports an already-exists
conflict. -/
def envNsConflict : Env :=
  { envAllOk with
    createNamespace := fun name _ =>
      some ("namespaces \x22" ++ name ++ "\x22 already exists") }

/-! Generic lemmas about the stage runner. -/

/-- Running a prefix to completion and then the rest is running the
concatenation. -/
theorem runStages_append_ok {l1 : List StageFn} {env st tr st1} (l2 : List StageFn)
    (h : runStages l1 env st = (tr, StageRes.ok st1)) :
    runStages (l1 ++ l2) env st =
      (tr ++ (runStages l2 env st1).1, (runStages l2 env st1).2) := by
  induction l1 generalizing st tr with
  | nil =>
    simp only [runStages] at h
    cases h
    simp [runStages]
  | cons s l ih =>
    rcases h1 : s env st with ⟨tr1, r1⟩
    cases r1 with
    | ok st2 =>
      rcases h2 : runStages l env st2 with ⟨tr2, r2⟩
      simp only [runStages, h1, h2] at h
      cases r2 with
      | ok st3 =>
        rw [Prod.mk.injEq, StageRes.ok.injEq] at h
        obtain ⟨rfl, rfl⟩ := h
        simp only [List.cons_append, runStages, List.append_eq, h1]
        rw [ih h2]
        simp [List.append_assoc]
      | fatal lg => simp at h
      | hung => simp at h
    | fatal lg =>
      simp only [runStages, h1] at h
      simp at h
    | hung =>
      simp only [runStages, h1] at h
      simp at h

/-- A failing stage after a completed prefix makes the whole run fail with
exactly the prefix trace, the failing stage's trace, and its log. -/
theorem runStages_cons_fatal {s : StageFn} {l : List StageFn} {env st trf lg}
    (h : s env st = (trf, StageRes.fatal lg)) :
    runStages (s :: l) env st = (trf, StageRes.fatal lg) := by
  simp [runStages, h]

/-- Inversion of a completed run of a stage list. -/
theorem runStages_cons_ok {s : StageFn} {l : List StageFn} {env st tr stF}
    (h : runStages (s :: l) env st = (tr, StageRes.ok stF)) :
    ∃ tr1 st1 tr2, s env st = (tr1, StageRes.ok st1) ∧
      runStages l env st1 = (tr2, StageRes.ok stF) ∧ tr = tr1 ++ tr2 := by
  rcases h1 : s env st with ⟨tr1, r1⟩
  cases r1 with
  | ok st1 =>
    rcases h2 : runStages l env st1 with ⟨tr2, r2⟩
    simp only [runStages, h1, h2] at h
    cases r2 with
    | ok st2 =>
      rw [Prod.mk.injEq, StageRes.ok.injEq] at h
      obtain ⟨rfl, rfl⟩ := h
      exact ⟨tr1, st1, tr2, rfl, h2, rfl⟩
    | fatal lg => simp at h
    | hung => simp at h
  | fatal lg =>
    simp only [runStages, h1] at h
    simp at h
  | hung =>
    simp only [runStages, h1] at h
    simp at h

/-- Every call of a run belongs to some stage of the list. -/
theorem runStages_calls (P : Call → Prop) :
    ∀ (l : List StageFn) (env : Env) (st : St),
      (∀ s ∈ l, ∀ st1 c, c ∈ (s env st1).1 → P c) →
      ∀ c ∈ (runStages l env st).1, P c := by
  intro l
  induction l with
  | nil => intro env st _ c hc; simp [runStages] at hc
  | cons s l ih =>
    intro env st hall c hc
    rcases h1 : s env st with ⟨tr1, r1⟩
    cases r1 with
    | ok st1 =>
      simp only [runStages, h1] at hc
      rcases List.mem_append.mp hc with h | h
      · exact hall s (List.mem_cons_self s l) st c (h1 ▸ h)
      · exact ih env st1 (fun s2 hs2 => hall s2 (List.mem_cons_of_mem s hs2)) c h
    | fatal lg =>
      simp only [runStages, h1] at hc
      exact hall s (List.mem_cons_self s l) st c (h1 ▸ hc)
    | hung =>
      simp only [runStages, h1] at hc
      exact hall s (List.mem_cons_self s l) st c (h1 ▸ hc)

/-- Bound the number of occurrences of a call across a run by a potential on
the state, given a per-stage bound. -/
theorem runStages_count (cnt : Call) (φ : St → Nat) :
    ∀ (l : List StageFn) (env : Env) (st : St),
      (∀ s ∈ l, ∀ st1 tr r, s env st1 = (tr, r) →
        tr.count cnt ≤ φ st1 ∧ ∀ st2, r = StageRes.ok st2 → tr.count cnt + φ st2 ≤ φ st1) →
      (runStages l env st).1.count cnt ≤ φ st := by
  intro l
  induction l with
  | nil => intro env st _; simp [runStages]
  | cons s l ih =>
    intro env st hall
    rcases h1 : s env st with ⟨tr1, r1⟩
    have hb := hall s (List.mem_cons_self s l) st tr1 r1 h1
    cases r1 with
    | ok st1 =>
      have hrest := ih env st1 (fun s2 hs2 => hall s2 (List.mem_cons_of_mem s hs2))
      simp only [runStages, h1, List.count_append]
      have := hb.2 st1 rfl
      omega
    | fatal lg => simpa [runStages, h1] using hb.1
    | hung => simpa [runStages, h1] using hb.1

/-! Lemmas about the readiness loop. -/

/-- Readiness within the observed budget yields exactly the canonical poll
trace: the first ready attempt ends the loop. -/
theorem pollAux_shape (pods : Nat → Except GoError (List Pod)) :
    ∀ f a tr, pollAux pods f a = (tr, true) →
      ∃ N, N < f ∧ (∀ i, i < N → podsReady (pods (a + i)) = false) ∧
        podsReady (pods (a + N)) = true ∧ tr = pollTraceFrom a N := by
  intro f
  induction f with
  | zero => intro a tr h; simp [pollAux] at h
  | succ f ih =>
    intro a tr h
    by_cases hr : podsReady (pods a) = true
    · simp only [pollAux] at h
      rw [if_pos hr, Prod.mk.injEq] at h
      obtain ⟨rfl, -⟩ := h
      exact ⟨0, Nat.succ_pos f, by omega, by simpa using hr, rfl⟩
    · simp only [pollAux] at h
      rw [if_neg hr, Prod.mk.injEq] at h
      obtain ⟨htr, hsnd⟩ := h
      have hrec : pollAux pods f (a + 1) = ((pollAux pods f (a + 1)).1, true) := by
        rw [← hsnd]
      rcases ih (a + 1) (pollAux pods f (a + 1)).1 hrec with ⟨N, hNf, hbefore, hready, htreq⟩
      refine ⟨N + 1, by omega, ?_, ?_, ?_⟩
      · intro i hi
        cases i with
        | zero => simpa using eq_false_of_ne_true hr
        | succ j =>
          have : a + (j + 1) = a + 1 + j := by omega
          rw [this]
          exact hbefore j (by omega)
      · have : a + (N + 1) = a + 1 + N := by omega
        rw [this]
        exact hready
      · rw [← htr, htreq]
        rfl

/-- Conversely, with the first N attempts not ready and attempt N ready, the
loop performs exactly the canonical poll trace and stops ready, for any
observation budget above N. -/
theorem pollAux_of_ready (pods : Nat → Except GoError (List Pod)) :
    ∀ N f a, (∀ i, i < N → podsReady (pods (a + i)) = false) →
      podsReady (pods (a + N)) = true → N < f →
      pollAux pods f a = (pollTraceFrom a N, true) := by
  intro N
  induction N with
  | zero =>
    intro f a _ hready hf
    rcases f with _ | f
    · omega
    · have : podsReady (pods a) = true := by simpa using hready
      simp [pollAux, this, pollTraceFrom]
  | succ N ih =>
    intro f a hbefore hready hf
    rcases f with _ | f
    · omega
    · have h0 : podsReady (pods a) = false := by simpa using hbefore 0 (by omega)
      have hrec : pollAux pods f (a + 1) = (pollTraceFrom (a + 1) N, true) := by
        refine ih f (a + 1) ?_ ?_ (by omega)
        · intro i hi
          have : a + 1 + i = a + (i + 1) := by omega
          rw [this]
          exact hbefore (i + 1) (by omega)
        · have : a + 1 + N = a + (N + 1) := by omega
          rw [this]
          exact hready
      simp [pollAux, h0, hrec, pollTraceFrom]

/-- If some attempt within the budget is ready, the loop reaches readiness. -/
theorem pollAux_reaches (pods : Nat → Except GoError (List Pod)) :
    ∀ f a, (∃ k, k < f ∧ podsReady (pods (a + k)) = true) →
      (pollAux pods f a).2 = true := by
  intro f
  induction f with
  | zero => rintro a ⟨k, hk, _⟩; omega
  | succ f ih =>
    rintro a ⟨k, hk, hr⟩
    by_cases h0 : podsReady (pods a) = true
    · simp [pollAux, h0]
    · have hk0 : k ≠ 0 := by
        intro he
        rw [he] at hr
        simp at hr
        exact h0 (by simpa using hr)
      simp only [pollAux, h0, if_false, Bool.not_eq_true]
      exact ih (a + 1) ⟨k - 1, by omega, by
        have : a + 1 + (k - 1) = a + k := by omega
        rw [this]
        exact hr⟩

/-- Number of pod listings in a canonical poll trace: one per attempt. -/
theorem pollTraceFrom_countP :
    ∀ a N, (pollTraceFrom a N).countP isListPods = N + 1 := by
  have hl : ∀ k, isListPods (Call.listPods "kube-system" k) = true := fun _ => rfl
  have hs : isListPods (Call.sleep 10) = false := rfl
  intro a N
  induction N generalizing a with
  | zero => simp [pollTraceFrom, List.countP_cons, hl]
  | succ N ih => simp [pollTraceFrom, List.countP_cons, hl, hs, ih]

/-- Every call of a poll trace is a pod listing or a sleep. -/
theorem pollTraceFrom_mem :
    ∀ a N c, c ∈ pollTraceFrom a N →
      (∃ k, c = Call.listPods "kube-system" k) ∨ c = Call.sleep 10 := by
  intro a N
  induction N generalizing a with
  | zero =>
    intro c hc
    simp [pollTraceFrom] at hc
    exact Or.inl ⟨a, hc⟩
  | succ N ih =>
    intro c hc
    simp only [pollTraceFrom, List.mem_cons] at hc
    rcases hc with rfl | rfl | hc
    · exact Or.inl ⟨a, rfl⟩
    · exact Or.inr rfl
    · exact ih (a + 1) c hc

/-! Inversion lemmas for the individual stages: what a stage that continued
must have done. -/

theorem cmdStage_ok {p : String} {a : List String} {lg env st tr st2}
    (h : cmdStage p a lg env st = (tr, StageRes.ok st2)) :
    tr = [Call.runCmd p a] ∧ st2 = st ∧ (env.run p a).2 = none := by
  rcases hr : env.run p a with ⟨out, oe⟩
  cases oe with
  | none =>
    simp only [cmdStage, hr] at h
    rw [Prod.mk.injEq, StageRes.ok.injEq] at h
    exact ⟨h.1.symm, h.2.symm, rfl⟩

  | some e =>
    simp only [cmdStage, hr] at h
    simp at h

theorem nsStage_ok {name : String} {labels : List (String × String)} {lg env st tr st2}
    (h : nsStage name labels lg env st = (tr, StageRes.ok st2)) :
    tr = [Call.createNamespace name labels] ∧ st2 = st ∧
      env.createNamespace name labels = none := by
  cases hr : env.createNamespace name labels with
  | none =>
    simp only [nsStage, hr] at h
    rw [Prod.mk.injEq, StageRes.ok.injEq] at h
    exact ⟨h.1.symm, h.2.symm, rfl⟩
  | some e =>
    simp only [nsStage, hr] at h
    simp at h

theorem installOUStage_ok {clientNs : String} {mkSpec : St → ChartSpec} {lg env st tr st2}
    (h : installOUStage clientNs mkSpec lg env st = (tr, StageRes.ok st2)) :
    tr = [Call.installOrUpgrade clientNs (mkSpec st)] ∧ st2 = st := by
  cases hr : env.installOrUpgrade clientNs (mkSpec st) with
  | none =>
    simp only [installOUStage, hr] at h
    rw [Prod.mk.injEq, StageRes.ok.injEq] at h
    exact ⟨h.1.symm, h.2.symm⟩
  | some e =>
    simp only [installOUStage, hr] at h
    simp at h

theorem stBuildClient_ok {env st tr st2}
    (h : stBuildClient env st = (tr, StageRes.ok st2)) :
    tr = [Call.buildConfig adminConfPath, Call.newForConfig] ∧ st2 = st := by
  cases hb : env.buildConfig with
  | error e =>
    simp only [stBuildClient, hb] at h
    simp at h
  | ok u =>
    cases hn : env.newForConfig with
    | error e =>
      simp only [stBuildClient, hb, hn] at h
      simp at h
    | ok v =>
      simp only [stBuildClient, hb, hn] at h
      rw [Prod.mk.injEq, StageRes.ok.injEq] at h
      exact ⟨h.1.symm, h.2.symm⟩

theorem stDiscoverIP_ok {env st tr st2}
    (h : stDiscoverIP env st = (tr, StageRes.ok st2)) :
    ∃ ip, env.dial = Except.ok ip ∧ tr = [Call.dialUDP "1.1.1.1:80"] ∧
      st2 = { st with defaultIp := ip } := by
  cases hd : env.dial with
  | error e =>
    simp only [stDiscoverIP, hd] at h
    simp at h
  | ok ip =>
    simp only [stDiscoverIP, hd] at h
    rw [Prod.mk.injEq, StageRes.ok.injEq] at h
    exact ⟨ip, rfl, h.1.symm, h.2.symm⟩

theorem stReadinessPoll_ok {env st tr st2}
    (h : stReadinessPoll env st = (tr, StageRes.ok st2)) :
    st2 = st ∧ ∃ N, N < env.fuel ∧ (∀ i, i < N → podsReady (env.pods i) = false) ∧
      podsReady (env.pods N) = true ∧ tr = pollTraceFrom 0 N := by
  by_cases hb : (pollAux env.pods env.fuel 0).2 = true
  · simp only [stReadinessPoll] at h
    rw [if_pos hb, Prod.mk.injEq, StageRes.ok.injEq] at h
    obtain ⟨htr, rfl⟩ := h
    have hpa : pollAux env.pods env.fuel 0 = ((pollAux env.pods env.fuel 0).1, true) := by
      rw [← hb]
    rcases pollAux_shape env.pods env.fuel 0 _ hpa with ⟨N, hNf, hbefore, hready, htreq⟩
    refine ⟨rfl, N, hNf, ?_, by simpa using hready, by rw [← htr, htreq]⟩
    intro i hi
    simpa using hbefore i hi
  · simp only [stReadinessPoll] at h
    rw [if_neg hb] at h
    simp at h

theorem initKubeConf_ok {env st tr st2}
    (h : initKubeConf env st = (tr, Except.ok st2)) :
    (st.kubeConfig = "" ∧ ∃ kc, env.readFile adminConfPath = Except.ok kc ∧
      tr = [Call.readFile adminConfPath] ∧ st2 = { st with kubeConfig := kc }) ∨
    (st.kubeConfig ≠ "" ∧ tr = [] ∧ st2 = st) := by
  by_cases he : st.kubeConfig = ""
  · cases hr : env.readFile adminConfPath with
    | error e =>
      simp only [initKubeConf, if_pos he, hr] at h
      simp at h
    | ok kc =>
      simp only [initKubeConf, if_pos he, hr] at h
      rw [Prod.mk.injEq, Except.ok.injEq] at h
      exact Or.inl ⟨he, kc, rfl, h.1.symm, h.2.symm⟩
  · simp only [initKubeConf, if_neg he] at h
    rw [Prod.mk.injEq, Except.ok.injEq] at h
    exact Or.inr ⟨he, h.1.symm, h.2.symm⟩

theorem helmClientForNs_ok {env st ns tr st2}
    (h : helmClientForNs env st ns = (tr, HelmRes.ok st2)) :
    ∃ tri, initKubeConf env st = (tri, Except.ok st2) ∧
      env.newHelmClient ns = Except.ok () ∧ tr = tri ++ [Call.newHelmClient ns] := by
  rcases hik : initKubeConf env st with ⟨tri, ri⟩
  cases ri with
  | error lg =>
    simp only [helmClientForNs, hik] at h
    simp at h
  | ok st1 =>
    cases hn : env.newHelmClient ns with
    | error e =>
      simp only [helmClientForNs, hik, hn] at h
      simp at h
    | ok u =>
      simp only [helmClientForNs, hik, hn] at h
      rw [Prod.mk.injEq, HelmRes.ok.injEq] at h
      obtain ⟨htr, rfl⟩ := h
      exact ⟨tri, rfl, by cases u; rfl, htr.symm⟩

/-- While the cache already holds the (deterministic) kubeconfig blob, a
helm-client construction reads the file exactly when the blob is empty dead
and leaves the state unchanged. -/
theorem helmClientForNs_canonical {env st ns tr st2 kc}
    (hkc : env.readFile adminConfPath = Except.ok kc) (hst : st.kubeConfig = kc)
    (h : helmClientForNs env st ns = (tr, HelmRes.ok st2)) :
    tr = mayRead kc ++ [Call.newHelmClient ns] ∧ st2 = st := by
  obtain ⟨tri, hik, hn, htr⟩ := helmClientForNs_ok h
  rcases initKubeConf_ok hik with ⟨he, kc2, hr2, htr2, hst2⟩ | ⟨hne, htr2, hst2⟩
  · have hkc0 : kc = "" := by rw [← hst, he]
    have hkc2 : kc2 = kc := by
      rw [hkc] at hr2
      injection hr2 with h2
      exact h2.symm
    constructor
    · rw [htr, htr2]
      simp [mayRead, hkc0]
    · rw [hst2, hkc2, ← hst]
  · have hkcne : ¬ kc = "" := by rw [← hst]; exact hne
    constructor
    · rw [htr, htr2]
      simp [mayRead, hkcne]
    · exact hst2

theorem InstallSpecWithNSClient_ok {env st ns spec tr st2}
    (h : InstallSpecWithNSClient env st ns spec = (tr, HelmRes.ok st2)) :
    ∃ trh, helmClientForNs env st ns = (trh, HelmRes.ok st2) ∧
      env.installChart ns spec = none ∧ tr = trh ++ [Call.installChart ns spec] := by
  rcases hh : helmClientForNs env st ns with ⟨trh, rh⟩
  cases rh with
  | fatal lg =>
    simp only [InstallSpecWithNSClient, hh] at h
    simp at h
  | err e =>
    simp only [InstallSpecWithNSClient, hh] at h
    simp at h
  | ok st1 =>
    cases hi : env.installChart ns spec with
    | none =>
      simp only [InstallSpecWithNSClient, hh, hi] at h
      rw [Prod.mk.injEq, HelmRes.ok.injEq] at h
      obtain ⟨htr, rfl⟩ := h
      exact ⟨trh, rfl, rfl, htr.symm⟩
    | some e =>
      simp only [InstallSpecWithNSClient, hh, hi] at h
      simp at h

theorem installNSStage_ok {ns spec lg env st tr st2}
    (h : installNSStage ns spec lg env st = (tr, StageRes.ok st2)) :
    InstallSpecWithNSClient env st ns spec = (tr, HelmRes.ok st2) := by
  rcases hh : InstallSpecWithNSClient env st ns spec with ⟨trh, rh⟩
  cases rh with
  | fatal lg2 =>
    simp only [installNSStage, hh] at h
    simp at h
  | err e =>
    simp only [installNSStage, hh] at h
    simp at h
  | ok st1 =>
    simp only [installNSStage, hh] at h
    rw [Prod.mk.injEq, StageRes.ok.injEq] at h
    obtain ⟨rfl, rfl⟩ := h
    rfl

theorem stAddRepos_ok {env st tr st2}
    (h : stAddRepos env st = (tr, StageRes.ok st2)) :
    ∃ trh, helmClientForNs env st "default" = (trh, HelmRes.ok st2) ∧
      tr = trh ++ [Call.addRepo "default" ciliumRepo, Call.addRepo "default" kyvernoRepo,
        Call.addRepo "default" rookRepo, Call.addRepo "default" gitopsRepo] := by
  rcases hh : helmClientForNs env st "default" with ⟨trh, rh⟩
  cases rh with
  | fatal lg =>
    simp only [stAddRepos, hh] at h
    simp at h
  | err e =>
    simp only [stAddRepos, hh] at h
    simp at h
  | ok st1 =>
    cases h1 : env.addRepo "default" ciliumRepo with
    | some e => simp only [stAddRepos, hh, h1] at h; simp at h
    | none =>
      cases h2 : env.addRepo "default" kyvernoRepo with
      | some e => simp only [stAddRepos, hh, h1, h2] at h; simp at h
      | none =>
        cases h3 : env.addRepo "default" rookRepo with
        | some e => simp only [stAddRepos, hh, h1, h2, h3] at h; simp at h
        | none =>
          cases h4 : env.addRepo "default" gitopsRepo with
          | some e => simp only [stAddRepos, hh, h1, h2, h3, h4] at h; simp at h
          | none =>
            simp only [stAddRepos, hh, h1, h2, h3, h4] at h
            rw [Prod.mk.injEq, StageRes.ok.injEq] at h
            obtain ⟨htr, rfl⟩ := h
            exact ⟨trh, rfl, htr.symm⟩

theorem stRookOperator_ok {env st tr st2}
    (h : stRookOperator env st = (tr, StageRes.ok st2)) :
    ∃ trh, helmClientForNs env st "rook-ceph" = (trh, HelmRes.ok st2) ∧
      tr = trh ++ [Call.installOrUpgrade "rook-ceph" rookOpSpec] := by
  rcases hh : helmClientForNs env st "rook-ceph" with ⟨trh, rh⟩
  cases rh with
  | fatal lg =>
    simp only [stRookOperator, hh] at h
    simp at h
  | err e =>
    simp only [stRookOperator, hh] at h
    simp at h
  | ok st1 =>
    cases hi : env.installOrUpgrade "rook-ceph" rookOpSpec with
    | some e => simp only [stRookOperator, hh, hi] at h; simp at h
    | none =>
      simp only [stRookOperator, hh, hi] at h
      rw [Prod.mk.injEq, StageRes.ok.injEq] at h
      obtain ⟨htr, rfl⟩ := h
      exact ⟨trh, rfl, htr.symm⟩

/-! Call-shape lemmas: which calls each stage can possibly emit, on any
environment and state, in any branch. -/

theorem cmdStage_calls {p : String} {a : List String} {lg env st} :
    ∀ c ∈ (cmdStage p a lg env st).1, c = Call.runCmd p a := by
  intro c hc
  rcases hr : env.run p a with ⟨out, oe⟩
  cases oe <;> simp [cmdStage, hr] at hc <;> exact hc

theorem nsStage_calls {name : String} {labels : List (String × String)} {lg env st} :
    ∀ c ∈ (nsStage name labels lg env st).1, c = Call.createNamespace name labels := by
  intro c hc
  cases hr : env.createNamespace name labels <;>
    simp [nsStage, hr] at hc <;> exact hc

theorem installOUStage_calls {clientNs : String} {mkSpec : St → ChartSpec} {lg env st} :
    ∀ c ∈ (installOUStage clientNs mkSpec lg env st).1,
      c = Call.installOrUpgrade clientNs (mkSpec st) := by
  intro c hc
  cases hr : env.installOrUpgrade clientNs (mkSpec st) <;>
    simp [installOUStage, hr] at hc <;> exact hc

theorem stBuildClient_calls {env st} :
    ∀ c ∈ (stBuildClient env st).1,
      c = Call.buildConfig adminConfPath ∨ c = Call.newForConfig := by
  intro c hc
  cases hb : env.buildConfig with
  | error e =>
    simp [stBuildClient, hb] at hc
    exact Or.inl hc
  | ok u =>
    cases hn : env.newForConfig <;> simp [stBuildClient, hb, hn] at hc <;> exact hc

theorem stDiscoverIP_calls {env st} :
    ∀ c ∈ (stDiscoverIP env st).1, c = Call.dialUDP "1.1.1.1:80" := by
  intro c hc
  cases hd : env.dial <;> simp [stDiscoverIP, hd] at hc <;> exact hc

theorem pollAux_calls {pods : Nat → Except GoError (List Pod)} :
    ∀ f a c, c ∈ (pollAux pods f a).1 →
      (∃ k, c = Call.listPods "kube-system" k) ∨ c = Call.sleep 10 := by
  intro f
  induction f with
  | zero => intro a c hc; simp [pollAux] at hc
  | succ f ih =>
    intro a c hc
    by_cases hr : podsReady (pods a) = true
    · simp only [pollAux] at hc
      rw [if_pos hr] at hc
      simp at hc
      exact Or.inl ⟨a, hc⟩
    · simp only [pollAux] at hc
      rw [if_neg hr] at hc
      simp only [List.mem_cons] at hc
      rcases hc with rfl | rfl | hc
      · exact Or.inl ⟨a, rfl⟩
      · exact Or.inr rfl
      · exact ih (a + 1) c hc

theorem stReadinessPoll_calls {env st} :
    ∀ c ∈ (stReadinessPoll env st).1,
      (∃ k, c = Call.listPods "kube-system" k) ∨ c = Call.sleep 10 := by
  intro c hc
  exact pollAux_calls env.fuel 0 c hc

theorem initKubeConf_calls {env st} :
    ∀ c ∈ (initKubeConf env st).1, c = Call.readFile adminConfPath := by
  intro c hc
  by_cases he : st.kubeConfig = ""
  · cases hr : env.readFile adminConfPath <;>
      simp [initKubeConf, he, hr] at hc <;> exact hc
  · simp [initKubeConf, he] at hc

theorem helmClientForNs_calls {env st ns} :
    ∀ c ∈ (helmClientForNs env st ns).1,
      c = Call.readFile adminConfPath ∨ c = Call.newHelmClient ns := by
  intro c hc
  rcases hik : initKubeConf env st with ⟨tri, ri⟩
  have htri : ∀ c ∈ tri, c = Call.readFile adminConfPath := by
    intro c2 hc2
    exact initKubeConf_calls c2 (by rw [hik]; exact hc2)
  cases ri with
  | error lg =>
    simp only [helmClientForNs, hik] at hc
    exact Or.inl (htri c hc)
  | ok st1 =>
    cases hn : env.newHelmClient ns <;>
      simp only [helmClientForNs, hik, hn] at hc <;>
      rcases List.mem_append.mp hc with h | h
    · exact Or.inl (htri c h)
    · simp at h
      exact Or.inr h
    · exact Or.inl (htri c h)
    · simp at h
      exact Or.inr h

theorem InstallSpecWithNSClient_calls {env st ns spec} :
    ∀ c ∈ (InstallSpecWithNSClient env st ns spec).1,
      c = Call.readFile adminConfPath ∨ c = Call.newHelmClient ns ∨
        c = Call.installChart ns spec := by
  intro c hc
  rcases hh : helmClientForNs env st ns with ⟨trh, rh⟩
  have htrh : ∀ c ∈ trh, c = Call.readFile adminConfPath ∨ c = Call.newHelmClient ns := by
    intro c2 hc2
    exact helmClientForNs_calls c2 (by rw [hh]; exact hc2)
  cases rh with
  | fatal lg =>
    simp only [InstallSpecWithNSClient, hh] at hc
    rcases htrh c hc with h | h
    · exact Or.inl h
    · exact Or.inr (Or.inl h)
  | err e =>
    simp only [InstallSpecWithNSClient, hh] at hc
    rcases htrh c hc with h | h
    · exact Or.inl h
    · exact Or.inr (Or.inl h)
  | ok st1 =>
    cases hi : env.installChart ns spec <;>
      simp only [InstallSpecWithNSClient, hh, hi] at hc <;>
      rcases List.mem_append.mp hc with h | h
    · rcases htrh c h with h2 | h2
      · exact Or.inl h2
      · exact Or.inr (Or.inl h2)
    · simp at h
      exact Or.inr (Or.inr h)
    · rcases htrh c h with h2 | h2
      · exact Or.inl h2
      · exact Or.inr (Or.inl h2)
    · simp at h
      exact Or.inr (Or.inr h)

theorem installNSStage_calls {ns spec lg env st} :
    ∀ c ∈ (installNSStage ns spec lg env st).1,
      c = Call.readFile adminConfPath ∨ c = Call.newHelmClient ns ∨
        c = Call.installChart ns spec := by
  intro c hc
  rcases hh : InstallSpecWithNSClient env st ns spec with ⟨trh, rh⟩
  have htrh := fun c2 hc2 => InstallSpecWithNSClient_calls c2 (by rw [hh]; exact hc2 :
    c2 ∈ (InstallSpecWithNSClient env st ns spec).1)
  cases rh <;> simp only [installNSStage, hh] at hc <;> exact htrh c hc

theorem stAddRepos_calls {env st} :
    ∀ c ∈ (stAddRepos env st).1,
      c = Call.readFile adminConfPath ∨ c = Call.newHelmClient "default" ∨
        c = Call.addRepo "default" ciliumRepo ∨ c = Call.addRepo "default" kyvernoRepo ∨
        c = Call.addRepo "default" rookRepo ∨ c = Call.addRepo "default" gitopsRepo := by
  intro c hc
  rcases hh : helmClientForNs env st "default" with ⟨trh, rh⟩
  have htrh : ∀ c2 ∈ trh,
      c2 = Call.readFile adminConfPath ∨ c2 = Call.newHelmClient "default" := by
    intro c2 hc2
    exact helmClientForNs_calls c2 (by rw [hh]; exact hc2)
  have hlift : ∀ c2 ∈ trh,
      c2 = Call.readFile adminConfPath ∨ c2 = Call.newHelmClient "default" ∨
        c2 = Call.addRepo "default" ciliumRepo ∨ c2 = Call.addRepo "default" kyvernoRepo ∨
        c2 = Call.addRepo "default" rookRepo ∨ c2 = Call.addRepo "default" gitopsRepo := by
    intro c2 hc2
    rcases htrh c2 hc2 with h | h
    · exact Or.inl h
    · exact Or.inr (Or.inl h)
  cases rh with
  | fatal lg =>
    simp only [stAddRepos, hh] at hc
    exact hlift c hc
  | err e =>
    simp only [stAddRepos, hh] at hc
    exact hlift c hc
  | ok st1 =>
    cases h1 : env.addRepo "default" ciliumRepo with
    | some e =>
      simp only [stAddRepos, hh, h1] at hc
      rcases List.mem_append.mp hc with h | h
      · exact hlift c h
      · simp at h
        exact Or.inr (Or.inr (Or.inl h))
    | none =>
      cases h2 : env.addRepo "default" kyvernoRepo with
      | some e =>
        simp only [stAddRepos, hh, h1, h2] at hc
        rcases List.mem_append.mp hc with h | h
        · exact hlift c h
        · simp at h
          rcases h with rfl | rfl
          · exact Or.inr (Or.inr (Or.inl rfl))
          · exact Or.inr (Or.inr (Or.inr (Or.inl rfl)))
      | none =>
        cases h3 : env.addRepo "default" rookRepo with
        | some e =>
          simp only [stAddRepos, hh, h1, h2, h3] at hc
          rcases List.mem_append.mp hc with h | h
          · exact hlift c h
          · simp at h
            rcases h with rfl | rfl | rfl
            · exact Or.inr (Or.inr (Or.inl rfl))
            · exact Or.inr (Or.inr (Or.inr (Or.inl rfl)))
            · exact Or.inr (Or.inr (Or.inr (Or.inr (Or.inl rfl))))
        | none =>
          cases h4 : env.addRepo "default" gitopsRepo with
          | some e =>
            simp only [stAddRepos, hh, h1, h2, h3, h4] at hc
            rcases List.mem_append.mp hc with h | h
            · exact hlift c h
            · simp at h
              rcases h with rfl | rfl | rfl | rfl
              · exact Or.inr (Or.inr (Or.inl rfl))
              · exact Or.inr (Or.inr (Or.inr (Or.inl rfl)))
              · exact Or.inr (Or.inr (Or.inr (Or.inr (Or.inl rfl))))
              · exact Or.inr (Or.inr (Or.inr (Or.inr (Or.inr rfl))))
          | none =>
            simp only [stAddRepos, hh, h1, h2, h3, h4] at hc
            rcases List.mem_append.mp hc with h | h
            · exact hlift c h
            · simp at h
              rcases h with rfl | rfl | rfl | rfl
              · exact Or.inr (Or.inr (Or.inl rfl))
              · exact Or.inr (Or.inr (Or.inr (Or.inl rfl)))
              · exact Or.inr (Or.inr (Or.inr (Or.inr (Or.inl rfl))))
              · exact Or.inr (Or.inr (Or.inr (Or.inr (Or.inr rfl))))

theorem stRookOperator_calls {env st} :
    ∀ c ∈ (stRookOperator env st).1,
      c = Call.readFile adminConfPath ∨ c = Call.newHelmClient "rook-ceph" ∨
        c = Call.installOrUpgrade "rook-ceph" rookOpSpec := by
  intro c hc
  rcases hh : helmClientForNs env st "rook-ceph" with ⟨trh, rh⟩
  have htrh : ∀ c2 ∈ trh,
      c2 = Call.readFile adminConfPath ∨ c2 = Call.newHelmClient "rook-ceph" := by
    intro c2 hc2
    exact helmClientForNs_calls c2 (by rw [hh]; exact hc2)
  have hlift : ∀ c2 ∈ trh,
      c2 = Call.readFile adminConfPath ∨ c2 = Call.newHelmClient "rook-ceph" ∨
        c2 = Call.installOrUpgrade "rook-ceph" rookOpSpec := by
    intro c2 hc2
    rcases htrh c2 hc2 with h | h
    · exact Or.inl h
    · exact Or.inr (Or.inl h)
  cases rh with
  | fatal lg =>
    simp only [stRookOperator, hh] at hc
    exact hlift c hc
  | err e =>
    simp only [stRookOperator, hh] at hc
    exact hlift c hc
  | ok st1 =>
    cases hi : env.installOrUpgrade "rook-ceph" rookOpSpec <;>
      simp only [stRookOperator, hh, hi] at hc <;>
      rcases List.mem_append.mp hc with h | h
    · exact hlift c h
    · simp at h
      exact Or.inr (Or.inr h)
    · exact hlift c h
    · simp at h
      exact Or.inr (Or.inr h)

/-- Every install call any stage can emit has the canonical client/spec
pairing. -/
theorem stagesInstallShape :
    ∀ s ∈ stages, ∀ (env : Env) (st : St), ∀ c ∈ (s env st).1, InstallShape c := by
  intro s hs env st c hc
  fin_cases hs
  · rcases cmdStage_calls c hc with rfl; trivial
  · rcases cmdStage_calls c hc with rfl; trivial
  · rcases stBuildClient_calls c hc with rfl | rfl <;> trivial
  · rcases stReadinessPoll_calls c hc with ⟨k, rfl⟩ | rfl <;> trivial
  · rcases cmdStage_calls c hc with rfl; trivial
  · rcases cmdStage_calls c hc with rfl; trivial
  · rcases stAddRepos_calls c hc with rfl | rfl | rfl | rfl | rfl | rfl <;> trivial
  · rcases stDiscoverIP_calls c hc with rfl; trivial
  · rcases installOUStage_calls c hc with rfl
    exact Or.inl ⟨rfl, st.defaultIp, rfl⟩
  · rcases nsStage_calls c hc with rfl; trivial
  · rcases installNSStage_calls c hc with rfl | rfl | rfl
    · trivial
    · trivial
    · exact Or.inl ⟨rfl, rfl⟩
  · rcases nsStage_calls c hc with rfl; trivial
  · rcases cmdStage_calls c hc with rfl; trivial
  · rcases stRookOperator_calls c hc with rfl | rfl | rfl
    · trivial
    · trivial
    · exact Or.inr ⟨rfl, Or.inl rfl⟩
  · rcases installOUStage_calls c hc with rfl
    exact Or.inr ⟨rfl, Or.inr rfl⟩
  · rcases nsStage_calls c hc with rfl; trivial
  · rcases installNSStage_calls c hc with rfl | rfl | rfl
    · trivial
    · trivial
    · exact Or.inr ⟨rfl, rfl⟩
  · rcases cmdStage_calls c hc with rfl; trivial

/-- Every install call of any run has the canonical client/spec pairing. -/
theorem runMain_installShape {env tr o} (h : runMain env = (tr, o)) :
    ∀ c ∈ tr, InstallShape c := by
  intro c hc
  have h0 : (runMain env).1 = tr := by rw [h]
  have h1 : tr = (runStages stages env initialSt).1 := by rw [← h0]; rfl
  rw [h1] at hc
  exact runStages_calls InstallShape stages env initialSt
    (fun s hs st1 => stagesInstallShape s hs env st1) c hc

/-! Counting kubeconfig reads.  The potential `kcPot` pays for at most one
read while the cache is empty; once the cache holds a non-empty blob no stage
reads the file again. -/

theorem count_zero_of_ne {l : List Call}
    (h : ∀ c ∈ l, c ≠ Call.readFile adminConfPath) :
    l.count (Call.readFile adminConfPath) = 0 :=
  List.count_eq_zero.mpr (fun hm => h _ hm rfl)

theorem initKubeConf_readBound {env st tr r kc}
    (hkc : env.readFile adminConfPath = Except.ok kc) (hne : kc ≠ "")
    (h : initKubeConf env st = (tr, r)) :
    tr.count (Call.readFile adminConfPath) ≤ kcPot st ∧
    ∀ st2, r = Except.ok st2 →
      tr.count (Call.readFile adminConfPath) + kcPot st2 ≤ kcPot st := by
  by_cases he : st.kubeConfig = ""
  · simp only [initKubeConf, if_pos he, hkc] at h
    rw [Prod.mk.injEq] at h
    obtain ⟨rfl, rfl⟩ := h
    constructor
    · simp [kcPot, he]
    · intro st2 hok
      injection hok with h2
      subst h2
      simp [kcPot, he, hne]
  · simp only [initKubeConf, if_neg he] at h
    rw [Prod.mk.injEq] at h
    obtain ⟨rfl, rfl⟩ := h
    constructor
    · simp
    · intro st2 hok
      injection hok with h2
      subst h2
      simp

theorem helmClientForNs_readBound {env st ns tr r kc}
    (hkc : env.readFile adminConfPath = Except.ok kc) (hne : kc ≠ "")
    (h : helmClientForNs env st ns = (tr, r)) :
    tr.count (Call.readFile adminConfPath) ≤ kcPot st ∧
    ∀ st2, r = HelmRes.ok st2 →
      tr.count (Call.readFile adminConfPath) + kcPot st2 ≤ kcPot st := by
  rcases hik : initKubeConf env st with ⟨tri, ri⟩
  have hnew : ([Call.newHelmClient ns] : List Call).count (Call.readFile adminConfPath) = 0 :=
    count_zero_of_ne (by
      intro c hc
      simp at hc
      subst hc
      intro he
      cases he)
  cases ri with
  | error lg =>
    have hb := initKubeConf_readBound hkc hne hik
    simp only [helmClientForNs, hik] at h
    rw [Prod.mk.injEq] at h
    obtain ⟨rfl, rfl⟩ := h
    refine ⟨hb.1, ?_⟩
    intro st2 hok
    simp at hok
  | ok st1 =>
    have hb := initKubeConf_readBound hkc hne hik
    have hbk := hb.2 st1 rfl
    cases hn : env.newHelmClient ns with
    | error e =>
      simp only [helmClientForNs, hik, hn] at h
      rw [Prod.mk.injEq] at h
      obtain ⟨rfl, rfl⟩ := h
      refine ⟨?_, ?_⟩
      · rw [List.count_append, hnew]
        omega
      · intro st2 hok
        simp at hok
    | ok u =>
      simp only [helmClientForNs, hik, hn] at h
      rw [Prod.mk.injEq] at h
      obtain ⟨rfl, rfl⟩ := h
      refine ⟨?_, ?_⟩
      · rw [List.count_append, hnew]
        omega
      · intro st2 hok
        injection hok with h2
        subst h2
        rw [List.count_append, hnew]
        omega

theorem InstallSpecWithNSClient_readBound {env st ns spec tr r kc}
    (hkc : env.readFile adminConfPath = Except.ok kc) (hne : kc ≠ "")
    (h : InstallSpecWithNSClient env st ns spec = (tr, r)) :
    tr.count (Call.readFile adminConfPath) ≤ kcPot st ∧
    ∀ st2, r = HelmRes.ok st2 →
      tr.count (Call.readFile adminConfPath) + kcPot st2 ≤ kcPot st := by
  rcases hh : helmClientForNs env st ns with ⟨trh, rh⟩
  have hb := helmClientForNs_readBound hkc hne hh
  have hich : ([Call.installChart ns spec] : List Call).count (Call.readFile adminConfPath) = 0 :=
    count_zero_of_ne (by
      intro c hc
      simp at hc
      subst hc
      intro he
      cases he)
  cases rh with
  | fatal lg =>
    simp only [InstallSpecWithNSClient, hh] at h
    rw [Prod.mk.injEq] at h
    obtain ⟨rfl, rfl⟩ := h
    refine ⟨hb.1, ?_⟩
    intro st2 hok
    simp at hok
  | err e =>
    simp only [InstallSpecWithNSClient, hh] at h
    rw [Prod.mk.injEq] at h
    obtain ⟨rfl, rfl⟩ := h
    refine ⟨hb.1, ?_⟩
    intro st2 hok
    simp at hok
  | ok st1 =>
    have hbk := hb.2 st1 rfl
    cases hi : env.installChart ns spec with
    | some e =>
      simp only [InstallSpecWithNSClient, hh, hi] at h
      rw [Prod.mk.injEq] at h
      obtain ⟨rfl, rfl⟩ := h
      refine ⟨?_, ?_⟩
      · rw [List.count_append, hich]
        omega
      · intro st2 hok
        simp at hok
    | none =>
      simp only [InstallSpecWithNSClient, hh, hi] at h
      rw [Prod.mk.injEq] at h
      obtain ⟨rfl, rfl⟩ := h
      refine ⟨?_, ?_⟩
      · rw [List.count_append, hich]
        omega
      · intro st2 hok
        injection hok with h2
        subst h2
        rw [List.count_append, hich]
        omega

theorem stAddRepos_readBound {env st tr r kc}
    (hkc : env.readFile adminConfPath = Except.ok kc) (hne : kc ≠ "")
    (h : stAddRepos env st = (tr, r)) :
    tr.count (Call.readFile adminConfPath) ≤ kcPot st ∧
    ∀ st2, r = StageRes.ok st2 →
      tr.count (Call.readFile adminConfPath) + kcPot st2 ≤ kcPot st := by
  rcases hh : helmClientForNs env st "default" with ⟨trh, rh⟩
  have hb := helmClientForNs_readBound hkc hne hh
  have hz1 : ([Call.addRepo "default" ciliumRepo] : List Call).count
      (Call.readFile adminConfPath) = 0 := by decide
  have hz2 : ([Call.addRepo "default" ciliumRepo, Call.addRepo "default" kyvernoRepo] :
      List Call).count (Call.readFile adminConfPath) = 0 := by decide
  have hz3 : ([Call.addRepo "default" ciliumRepo, Call.addRepo "default" kyvernoRepo,
      Call.addRepo "default" rookRepo] : List Call).count (Call.readFile adminConfPath) = 0 := by
    decide
  have hz4 : ([Call.addRepo "default" ciliumRepo, Call.addRepo "default" kyvernoRepo,
      Call.addRepo "default" rookRepo, Call.addRepo "default" gitopsRepo] :
      List Call).count (Call.readFile adminConfPath) = 0 := by decide
  cases rh with
  | fatal lg =>
    simp only [stAddRepos, hh] at h
    rw [Prod.mk.injEq] at h
    obtain ⟨rfl, rfl⟩ := h
    exact ⟨hb.1, by intro st2 hok; simp at hok⟩
  | err e =>
    simp only [stAddRepos, hh] at h
    rw [Prod.mk.injEq] at h
    obtain ⟨rfl, rfl⟩ := h
    exact ⟨hb.1, by intro st2 hok; simp at hok⟩
  | ok st1 =>
    have hbk := hb.2 st1 rfl
    cases h1 : env.addRepo "default" ciliumRepo with
    | some e =>
      simp only [stAddRepos, hh, h1] at h
      rw [Prod.mk.injEq] at h
      obtain ⟨rfl, rfl⟩ := h
      refine ⟨?_, by intro st2 hok; simp at hok⟩
      rw [List.count_append, hz1]
      omega
    | none =>
      cases h2 : env.addRepo "default" kyvernoRepo with
      | some e =>
        simp only [stAddRepos, hh, h1, h2] at h
        rw [Prod.mk.injEq] at h
        obtain ⟨rfl, rfl⟩ := h
        refine ⟨?_, by intro st2 hok; simp at hok⟩
        rw [List.count_append, hz2]
        omega
      | none =>
        cases h3 : env.addRepo "default" rookRepo with
        | some e =>
          simp only [stAddRepos, hh, h1, h2, h3] at h
          rw [Prod.mk.injEq] at h
          obtain ⟨rfl, rfl⟩ := h
          refine ⟨?_, by intro st2 hok; simp at hok⟩
          rw [List.count_append, hz3]
          omega
        | none =>
          cases h4 : env.addRepo "default" gitopsRepo with
          | some e =>
            simp only [stAddRepos, hh, h1, h2, h3, h4] at h
            rw [Prod.mk.injEq] at h
            obtain ⟨rfl, rfl⟩ := h
            refine ⟨?_, by intro st2 hok; simp at hok⟩
            rw [List.count_append, hz4]
            omega
          | none =>
            simp only [stAddRepos, hh, h1, h2, h3, h4] at h
            rw [Prod.mk.injEq] at h
            obtain ⟨rfl, rfl⟩ := h
            refine ⟨?_, ?_⟩
            · rw [List.count_append, hz4]
              omega
            · intro st2 hok
              injection hok with h5
              subst h5
              rw [List.count_append, hz4]
              omega

theorem stRookOperator_readBound {env st tr r kc}
    (hkc : env.readFile adminConfPath = Except.ok kc) (hne : kc ≠ "")
    (h : stRookOperator env st = (tr, r)) :
    tr.count (Call.readFile adminConfPath) ≤ kcPot st ∧
    ∀ st2, r = StageRes.ok st2 →
      tr.count (Call.readFile adminConfPath) + kcPot st2 ≤ kcPot st := by
  rcases hh : helmClientForNs env st "rook-ceph" with ⟨trh, rh⟩
  have hb := helmClientForNs_readBound hkc hne hh
  have hz : ([Call.installOrUpgrade "rook-ceph" rookOpSpec] : List Call).count
      (Call.readFile adminConfPath) = 0 :=
    count_zero_of_ne (by
      intro c hc
      simp at hc
      subst hc
      intro he
      cases he)
  cases rh with
  | fatal lg =>
    simp only [stRookOperator, hh] at h
    rw [Prod.mk.injEq] at h
    obtain ⟨rfl, rfl⟩ := h
    exact ⟨hb.1, by intro st2 hok; simp at hok⟩
  | err e =>
    simp only [stRookOperator, hh] at h
    rw [Prod.mk.injEq] at h
    obtain ⟨rfl, rfl⟩ := h
    exact ⟨hb.1, by intro st2 hok; simp at hok⟩
  | ok st1 =>
    have hbk := hb.2 st1 rfl
    cases hi : env.installOrUpgrade "rook-ceph" rookOpSpec with
    | some e =>
      simp only [stRookOperator, hh, hi] at h
      rw [Prod.mk.injEq] at h
      obtain ⟨rfl, rfl⟩ := h
      refine ⟨?_, by intro st2 hok; simp at hok⟩
      rw [List.count_append, hz]
      omega
    | none =>
      simp only [stRookOperator, hh, hi] at h
      rw [Prod.mk.injEq] at h
      obtain ⟨rfl, rfl⟩ := h
      refine ⟨?_, ?_⟩
      · rw [List.count_append, hz]
        omega
      · intro st2 hok
        injection hok with h5
        subst h5
        rw [List.count_append, hz]
        omega

theorem installNSStage_readBound {ns spec lg env st tr r kc}
    (hkc : env.readFile adminConfPath = Except.ok kc) (hne : kc ≠ "")
    (h : installNSStage ns spec lg env st = (tr, r)) :
    tr.count (Call.readFile adminConfPath) ≤ kcPot st ∧
    ∀ st2, r = StageRes.ok st2 →
      tr.count (Call.readFile adminConfPath) + kcPot st2 ≤ kcPot st := by
  rcases hh : InstallSpecWithNSClient env st ns spec with ⟨trh, rh⟩
  have hb := InstallSpecWithNSClient_readBound hkc hne hh
  cases rh with
  | fatal lg2 =>
    simp only [installNSStage, hh] at h
    rw [Prod.mk.injEq] at h
    obtain ⟨rfl, rfl⟩ := h
    exact ⟨hb.1, by intro st2 hok; simp at hok⟩
  | err e =>
    simp only [installNSStage, hh] at h
    rw [Prod.mk.injEq] at h
    obtain ⟨rfl, rfl⟩ := h
    exact ⟨hb.1, by intro st2 hok; simp at hok⟩
  | ok st1 =>
    simp only [installNSStage, hh] at h
    rw [Prod.mk.injEq] at h
    obtain ⟨rfl, rfl⟩ := h
    refine ⟨hb.1, ?_⟩
    intro st2 hok
    injection hok with h5
    subst h5
    exact hb.2 st1 rfl

/-- Read-count bound for stages that never touch the kubeconfig file and
never change the cache. -/
theorem readBound_of_calls {env : Env} {s : StageFn} {st tr r}
    (h : s env st = (tr, r))
    (hcalls : ∀ c ∈ (s env st).1, c ≠ Call.readFile adminConfPath)
    (hok : ∀ st2, r = StageRes.ok st2 → kcPot st2 = kcPot st) :
    tr.count (Call.readFile adminConfPath) ≤ kcPot st ∧
    ∀ st2, r = StageRes.ok st2 →
      tr.count (Call.readFile adminConfPath) + kcPot st2 ≤ kcPot st := by
  have htr : tr = (s env st).1 := by rw [h]
  have hz : tr.count (Call.readFile adminConfPath) = 0 :=
    count_zero_of_ne (fun c hc => hcalls c (htr ▸ hc))
  refine ⟨by omega, ?_⟩
  intro st2 hok2
  rw [hz, hok st2 hok2]
  omega

/-- Per-stage read bound: every stage reads the kubeconfig file at most once
while the cache is empty, never afterwards, and a completed stage never
empties a cache holding the non-empty blob. -/
theorem stagesReadBound {env kc}
    (hkc : env.readFile adminConfPath = Except.ok kc) (hne : kc ≠ "") :
    ∀ s ∈ stages, ∀ st tr r, s env st = (tr, r) →
      tr.count (Call.readFile adminConfPath) ≤ kcPot st ∧
      ∀ st2, r = StageRes.ok st2 →
        tr.count (Call.readFile adminConfPath) + kcPot st2 ≤ kcPot st := by
  intro s hs st tr r h
  fin_cases hs
  · refine readBound_of_calls h ?_ ?_
    · intro c hc
      rcases cmdStage_calls c hc with rfl
      intro he
      cases he
    · intro st2 hok
      rw [hok] at h
      obtain ⟨-, rfl, -⟩ := cmdStage_ok h
      rfl
  · refine readBound_of_calls h ?_ ?_
    · intro c hc
      rcases cmdStage_calls c hc with rfl
      intro he
      cases he
    · intro st2 hok
      rw [hok] at h
      obtain ⟨-, rfl, -⟩ := cmdStage_ok h
      rfl
  · refine readBound_of_calls h ?_ ?_
    · intro c hc
      rcases stBuildClient_calls c hc with rfl | rfl <;> (intro he; cases he)
    · intro st2 hok
      rw [hok] at h
      obtain ⟨-, rfl⟩ := stBuildClient_ok h
      rfl
  · refine readBound_of_calls h ?_ ?_
    · intro c hc
      rcases stReadinessPoll_calls c hc with ⟨k, rfl⟩ | rfl <;> (intro he; cases he)
    · intro st2 hok
      rw [hok] at h
      obtain ⟨rfl, -⟩ := stReadinessPoll_ok h
      rfl
  · refine readBound_of_calls h ?_ ?_
    · intro c hc
      rcases cmdStage_calls c hc with rfl
      intro he
      cases he
    · intro st2 hok
      rw [hok] at h
      obtain ⟨-, rfl, -⟩ := cmdStage_ok h
      rfl
  · refine readBound_of_calls h ?_ ?_
    · intro c hc
      rcases cmdStage_calls c hc with rfl
      intro he
      cases he
    · intro st2 hok
      rw [hok] at h
      obtain ⟨-, rfl, -⟩ := cmdStage_ok h
      rfl
  · exact stAddRepos_readBound hkc hne h
  · refine readBound_of_calls h ?_ ?_
    · intro c hc
      rcases stDiscoverIP_calls c hc with rfl
      intro he
      cases he
    · intro st2 hok
      rw [hok] at h
      obtain ⟨ip, -, -, rfl⟩ := stDiscoverIP_ok h
      rfl
  · refine readBound_of_calls h ?_ ?_
    · intro c hc
      rcases installOUStage_calls c hc with rfl
      intro he
      cases he
    · intro st2 hok
      rw [hok] at h
      obtain ⟨-, rfl⟩ := installOUStage_ok h
      rfl
  · refine readBound_of_calls h ?_ ?_
    · intro c hc
      rcases nsStage_calls c hc with rfl
      intro he
      cases he
    · intro st2 hok
      rw [hok] at h
      obtain ⟨-, rfl, -⟩ := nsStage_ok h
      rfl
  · exact installNSStage_readBound hkc hne h
  · refine readBound_of_calls h ?_ ?_
    · intro c hc
      rcases nsStage_calls c hc with rfl
      intro he
      cases he
    · intro st2 hok
      rw [hok] at h
      obtain ⟨-, rfl, -⟩ := nsStage_ok h
      rfl
  · refine readBound_of_calls h ?_ ?_
    · intro c hc
      rcases cmdStage_calls c hc with rfl
      intro he
      cases he
    · intro st2 hok
      rw [hok] at h
      obtain ⟨-, rfl, -⟩ := cmdStage_ok h
      rfl
  · exact stRookOperator_readBound hkc hne h
  · refine readBound_of_calls h ?_ ?_
    · intro c hc
      rcases installOUStage_calls c hc with rfl
      intro he
      cases he
    · intro st2 hok
      rw [hok] at h
      obtain ⟨-, rfl⟩ := installOUStage_ok h
      rfl
  · refine readBound_of_calls h ?_ ?_
    · intro c hc
      rcases nsStage_calls c hc with rfl
      intro he
      cases he
    · intro st2 hok
      rw [hok] at h
      obtain ⟨-, rfl, -⟩ := nsStage_ok h
      rfl
  · exact installNSStage_readBound hkc hne h
  · refine readBound_of_calls h ?_ ?_
    · intro c hc
      rcases cmdStage_calls c hc with rfl
      intro he
      cases he
    · intro st2 hok
      rw [hok] at h
      obtain ⟨-, rfl, -⟩ := cmdStage_ok h
      rfl

/-- A successful run performs exactly the canonical trace, for some number of
not-ready poll attempts, discovered address and kubeconfig blob. -/
theorem runMain_success_shape {env : Env} {tr : List Call}
    (h : runMain env = (tr, Outcome.success)) :
    ∃ N ip kc, env.readFile adminConfPath = Except.ok kc ∧ env.dial = Except.ok ip ∧
      tr = canonicalTrace N ip kc := by
  have h0 : (runStages stages env initialSt).1 = tr := congrArg Prod.fst h
  have hout : toOutcome (runStages stages env initialSt).2 = Outcome.success :=
    congrArg Prod.snd h
  rcases hR : runStages stages env initialSt with ⟨tr0, res0⟩
  rw [hR] at h0 hout
  cases res0 with
  | fatal lg => simp [toOutcome] at hout
  | hung => simp [toOutcome] at hout
  | ok stF =>
    have h0' : tr0 = tr := h0
    subst h0'
    simp only [stages] at hR
    obtain ⟨t1, s1, rest1, h1, hR1, rfl⟩ := runStages_cons_ok hR
    obtain ⟨rfl, rfl, -⟩ := cmdStage_ok h1
    obtain ⟨t2, s2, rest2, h2, hR2, rfl⟩ := runStages_cons_ok hR1
    obtain ⟨rfl, rfl, -⟩ := cmdStage_ok h2
    obtain ⟨t3, s3, rest3, h3, hR3, rfl⟩ := runStages_cons_ok hR2
    obtain ⟨rfl, rfl⟩ := stBuildClient_ok h3
    obtain ⟨t4, s4, rest4, h4, hR4, rfl⟩ := runStages_cons_ok hR3
    obtain ⟨rfl, N, hNf, hb4, hr4, rfl⟩ := stReadinessPoll_ok h4
    obtain ⟨t5, s5, rest5, h5, hR5, rfl⟩ := runStages_cons_ok hR4
    obtain ⟨rfl, rfl, -⟩ := cmdStage_ok h5
    obtain ⟨t6, s6, rest6, h6, hR6, rfl⟩ := runStages_cons_ok hR5
    obtain ⟨rfl, rfl, -⟩ := cmdStage_ok h6
    obtain ⟨t7, s7, rest7, h7, hR7, rfl⟩ := runStages_cons_ok hR6
    obtain ⟨trh1, hhelm1, rfl⟩ := stAddRepos_ok h7
    obtain ⟨tri1, hik1, -, rfl⟩ := helmClientForNs_ok hhelm1
    rcases initKubeConf_ok hik1 with ⟨-, kc, hrf, rfl, rfl⟩ | ⟨hne', -, -⟩
    swap
    · exact absurd rfl hne'
    obtain ⟨t8, s8, rest8, h8, hR8, rfl⟩ := runStages_cons_ok hR7
    obtain ⟨ip, hdial, rfl, rfl⟩ := stDiscoverIP_ok h8
    obtain ⟨t9, s9, rest9, h9, hR9, rfl⟩ := runStages_cons_ok hR8
    obtain ⟨rfl, rfl⟩ := installOUStage_ok h9
    obtain ⟨t10, s10, rest10, h10, hR10, rfl⟩ := runStages_cons_ok hR9
    obtain ⟨rfl, rfl, -⟩ := nsStage_ok h10
    obtain ⟨t11, s11, rest11, h11, hR11, rfl⟩ := runStages_cons_ok hR10
    have h11' := installNSStage_ok h11
    obtain ⟨trh2, hh2, -, rfl⟩ := InstallSpecWithNSClient_ok h11'
    obtain ⟨rfl, rfl⟩ := helmClientForNs_canonical hrf rfl hh2
    obtain ⟨t12, s12, rest12, h12, hR12, rfl⟩ := runStages_cons_ok hR11
    obtain ⟨rfl, rfl, -⟩ := nsStage_ok h12
    obtain ⟨t13, s13, rest13, h13, hR13, rfl⟩ := runStages_cons_ok hR12
    obtain ⟨rfl, rfl, -⟩ := cmdStage_ok h13
    obtain ⟨t14, s14, rest14, h14, hR14, rfl⟩ := runStages_cons_ok hR13
    obtain ⟨trh3, hh3, rfl⟩ := stRookOperator_ok h14
    obtain ⟨rfl, rfl⟩ := helmClientForNs_canonical hrf rfl hh3
    obtain ⟨t15, s15, rest15, h15, hR15, rfl⟩ := runStages_cons_ok hR14
    obtain ⟨rfl, rfl⟩ := installOUStage_ok h15
    obtain ⟨t16, s16, rest16, h16, hR16, rfl⟩ := runStages_cons_ok hR15
    obtain ⟨rfl, rfl, -⟩ := nsStage_ok h16
    obtain ⟨t17, s17, rest17, h17, hR17, rfl⟩ := runStages_cons_ok hR16
    have h17' := installNSStage_ok h17
    obtain ⟨trh4, hh4, -, rfl⟩ := InstallSpecWithNSClient_ok h17'
    obtain ⟨rfl, rfl⟩ := helmClientForNs_canonical hrf rfl hh4
    obtain ⟨t18, s18, rest18, h18, hR18, rfl⟩ := runStages_cons_ok hR17
    obtain ⟨rfl, rfl, -⟩ := cmdStage_ok h18
    simp only [runStages, Prod.mk.injEq] at hR18
    obtain ⟨hrest, -⟩ := hR18
    subst hrest
    refine ⟨N, ip, kc, hrf, hdial, ?_⟩
    simp [canonicalTrace, canonPre, canonPreA, canonPreB, canonPost, List.append_assoc]

/-! Ordering facts about the canonical trace. -/

theorem canonPre_no_install (N : Nat) : ∀ c ∈ canonPre N, isChartInstall c = false := by
  intro c hc
  simp only [canonPre, List.append_assoc, List.mem_append] at hc
  rcases hc with hc | hc | hc
  · exact (by decide : ∀ c ∈ canonPreA, isChartInstall c = false) c hc
  · rcases pollTraceFrom_mem 0 N c hc with ⟨k, rfl⟩ | rfl <;> rfl
  · exact (by decide : ∀ c ∈ canonPreB, isChartInstall c = false) c hc

theorem canonPost_no_addRepo (ip kc : String) : ∀ c ∈ canonPost ip kc, isAddRepo c = false := by
  intro c hc
  cases c <;> try rfl
  exfalso
  by_cases hkc : kc = "" <;> simp [canonPost, mayRead, hkc] at hc

/-- In a list split so that the left part has no Q-elements and the right
part no P-elements, every P-index precedes every Q-index. -/
theorem before_of_split {l1 l2 : List Call} (P Q : Call → Bool)
    (h1 : ∀ c ∈ l1, Q c = false) (h2 : ∀ c ∈ l2, P c = false) :
    ∀ i j (hi : i < (l1 ++ l2).length) (hj : j < (l1 ++ l2).length),
      P ((l1 ++ l2).get ⟨i, hi⟩) = true → Q ((l1 ++ l2).get ⟨j, hj⟩) = true → i < j := by
  intro i j hi hj hP hQ
  have hlen : (l1 ++ l2).length = l1.length + l2.length := List.length_append l1 l2
  have hiL : i < l1.length := by
    by_contra hge
    push_neg at hge
    have hget : (l1 ++ l2).get ⟨i, hi⟩ = l2.get ⟨i - l1.length, by omega⟩ := by
      rw [List.get_append_right]
      omega
    rw [hget] at hP
    have := h2 _ (l2.get_mem (i - l1.length) (by omega))
    rw [hP] at this
    cases this
  have hjR : l1.length ≤ j := by
    by_contra hlt
    push_neg at hlt
    have hget : (l1 ++ l2).get ⟨j, hj⟩ = l1.get ⟨j, hlt⟩ := by
      rw [List.get_append]
    rw [hget] at hQ
    have := h1 _ (l1.get_mem j hlt)
    rw [hQ] at this
    cases this
  omega

/-- Every repository registration precedes every chart install in the
canonical trace. -/
theorem canonicalTrace_order (N : Nat) (ip kc : String) :
    ∀ i j (hi : i < (canonicalTrace N ip kc).length)
      (hj : j < (canonicalTrace N ip kc).length),
      isAddRepo ((canonicalTrace N ip kc).get ⟨i, hi⟩) = true →
      isChartInstall ((canonicalTrace N ip kc).get ⟨j, hj⟩) = true → i < j :=
  before_of_split isAddRepo isChartInstall (canonPre_no_install N) (canonPost_no_addRepo ip kc)

/-! The claims. -/

/-- C1: for every run of the pipeline, if any stage's underlying operation
returns an error, no subsequent stage's operation is ever invoked: the run
terminates immediately with a non-zero exit (log.Fatalf) carrying the failing
stage's logged lines (its captured diagnostic output and error as the source
logs them), the trace is exactly the completed prefix plus the failing
stage's calls, and no cleanup call of already-applied state follows. -/
theorem c1_fail_fast : ∀ (env : Env) (pre : List StageFn) (s : StageFn)
    (post : List StageFn) (st : St) (tr trf : List Call) (lg : List String),
    stages = pre ++ s :: post →
    runStages pre env initialSt = (tr, StageRes.ok st) →
    s env st = (trf, StageRes.fatal lg) →
    runMain env = (tr ++ trf, Outcome.fatal lg) := by
  intro env pre s post st tr trf lg hst hpre hs
  have h2 := runStages_append_ok (s :: post) hpre
  rw [runStages_cons_fatal hs] at h2
  have h3 : runMain env =
      ((runStages stages env initialSt).1, toOutcome (runStages stages env initialSt).2) := rfl
  rw [h3, hst, h2]
  simp [toOutcome]

/-- Witness for C1: a run whose first stage (systemctl enable) fails stops
after that single call with the logged output and error. -/
theorem c1_witness :
    runMain envFailEnable = ([] ++ [Call.runCmd "bash" shellEnableArgs],
      Outcome.fatal ["Systemctl output: boom-out",
        "Unable to enable kubelet and crio: boom"]) :=
  c1_fail_fast envFailEnable [] stEnableKubelet
    [stKubeadmInit, stBuildClient, stReadinessPoll, stUntaint, stGatewayCRDs,
     stAddRepos, stDiscoverIP, stDeployCilium, stKyvernoNs, stDeployKyverno,
     stRookNs, stRookOverrides, stRookOperator, stRookCluster, stGitopsNs,
     stDeployGitops, stDefaultPolicies]
    initialSt [] [Call.runCmd "bash" shellEnableArgs]
    ["Systemctl output: boom-out", "Unable to enable kubelet and crio: boom"]
    rfl rfl rfl

/-- C2: every successful run performs exactly the canonical trace — runtime
start, control-plane init, client build, readiness poll, taint removal,
Gateway CRDs, the four repository registrations, host-address discovery, CNI
install, policy-engine namespace and install, storage namespace, overrides,
operator and cluster installs, GitOps namespace and install, default
policies — and in particular every repository registration precedes every
chart install in the trace. -/
theorem c2_canonical_order : ∀ (env : Env) (tr : List Call),
    runMain env = (tr, Outcome.success) →
    ∃ N ip kc, tr = canonicalTrace N ip kc ∧
      ∀ i j (hi : i < tr.length) (hj : j < tr.length),
        isAddRepo (tr.get ⟨i, hi⟩) = true →
        isChartInstall (tr.get ⟨j, hj⟩) = true → i < j := by
  intro env tr h
  obtain ⟨N, ip, kc, -, -, rfl⟩ := runMain_success_shape h
  exact ⟨N, ip, kc, rfl, canonicalTrace_order N ip kc⟩

/-- Witness for C2 at the all-success environment. -/
theorem c2_witness :
    ∃ N ip kc, (runMain envAllOk).1 = canonicalTrace N ip kc ∧
      ∀ i j (hi : i < (runMain envAllOk).1.length) (hj : j < (runMain envAllOk).1.length),
        isAddRepo ((runMain envAllOk).1.get ⟨i, hi⟩) = true →
        isChartInstall ((runMain envAllOk).1.get ⟨j, hj⟩) = true → i < j :=
  c2_canonical_order envAllOk (runMain envAllOk).1 rfl

/-- C3: if the pod listing is a transport error or empty on its first N
calls and a successful non-empty result on call N+1, the readiness prober
makes exactly the N+1 listings of the canonical poll trace — with the fixed
ten-second sleep between consecutive attempts and no call after the ready
one — and returns ready with the state unchanged. -/
theorem c3_poll_exact : ∀ (env : Env) (st : St) (N : Nat),
    (∀ i, i < N → podsReady (env.pods i) = false) →
    podsReady (env.pods N) = true →
    N < env.fuel →
    stReadinessPoll env st = (pollTraceFrom 0 N, StageRes.ok st) ∧
    (pollTraceFrom 0 N).countP isListPods = N + 1 := by
  intro env st N hbefore hready hf
  refine ⟨?_, pollTraceFrom_countP 0 N⟩
  have hp := pollAux_of_ready env.pods N env.fuel 0
    (by intro i hi; simpa using hbefore i hi) (by simpa using hready) hf
  simp only [stReadinessPoll, hp]
  simp

/-- Witness for C3: a transport error, then an empty listing, then a
non-empty one gives exactly three attempts. -/
theorem c3_witness :
    stReadinessPoll envPollN initialSt = (pollTraceFrom 0 2, StageRes.ok initialSt) ∧
    (pollTraceFrom 0 2).countP isListPods = 2 + 1 :=
  c3_poll_exact envPollN initialSt 2 (by decide) (by decide) (by decide)

/-- C4: the readiness loop reaches its terminal ready state for some
observation budget exactly when some listing attempt is a successful
non-empty result (no retry cap or timeout ends it otherwise), and the poll
stage never produces a fatal abort — a transport error or empty listing is
never surfaced as fatal on its own. -/
theorem c4_poll_termination :
    (∀ pods : Nat → Except GoError (List Pod),
      (∃ f, (pollAux pods f 0).2 = true) ↔ (∃ n, podsReady (pods n) = true)) ∧
    (∀ (env : Env) (st : St) (lg : List String),
      (stReadinessPoll env st).2 ≠ StageRes.fatal lg) := by
  constructor
  · intro pods
    constructor
    · rintro ⟨f, hf⟩
      have hpa : pollAux pods f 0 = ((pollAux pods f 0).1, true) := by rw [← hf]
      obtain ⟨N, -, -, hready, -⟩ := pollAux_shape pods f 0 _ hpa
      exact ⟨N, by simpa using hready⟩
    · rintro ⟨n, hn⟩
      exact ⟨n + 1, pollAux_reaches pods (n + 1) 0 ⟨n, by omega, by simpa using hn⟩⟩
  · intro env st lg
    simp only [stReadinessPoll]
    by_cases hb : (pollAux env.pods env.fuel 0).2 = true
    · rw [if_pos hb]
      exact fun he => StageRes.noConfusion he
    · rw [if_neg hb]
      exact fun he => StageRes.noConfusion he

/-- Counterexample to C5 as stated: in the all-success run the Kyverno chart
install is performed by the plain InstallChart operation (through
InstallSpecWithNSClient), and no install-or-upgrade call with the Kyverno
spec occurs; so not every chart-install stage uses install-or-upgrade. -/
theorem c5_counterexample :
    Call.installChart "kyverno" kyvernoSpec ∈ (runMain envAllOk).1 ∧
    (runMain envAllOk).2 = Outcome.success ∧
    (runMain envAllOk).1.countP
      (fun c => match c with
        | Call.installOrUpgrade _ s => s == kyvernoSpec
        | _ => false) = 0 := by
  refine ⟨by decide, rfl, by decide⟩

/-- C5 as amended: the CNI and the two storage chart installs go through
install-or-upgrade, while the policy-engine and GitOps chart installs go
through the plain install operation of InstallSpecWithNSClient; only the
former three carry the install-or-upgrade idempotence contract. -/
theorem c5_amended_install_operations :
    (∀ (env : Env) (tr : List Call) (o : Outcome) (ns : String) (s : ChartSpec),
      runMain env = (tr, o) → Call.installChart ns s ∈ tr →
        (ns = "kyverno" ∧ s = kyvernoSpec) ∨ (ns = "weave-gitops" ∧ s = gitopsSpec)) ∧
    (∀ (env : Env) (tr : List Call) (o : Outcome) (ns : String) (s : ChartSpec),
      runMain env = (tr, o) → Call.installOrUpgrade ns s ∈ tr →
        s.ReleaseName = "cilium" ∨ s.ReleaseName = "rook-ceph" ∨
          s.ReleaseName = "rook-ceph-cluster") ∧
    Call.installOrUpgrade "default" (ciliumSpec "10.0.0.5") ∈ (runMain envAllOk).1 ∧
    Call.installOrUpgrade "rook-ceph" rookOpSpec ∈ (runMain envAllOk).1 ∧
    Call.installOrUpgrade "rook-ceph" rookClusterSpec ∈ (runMain envAllOk).1 ∧
    Call.installChart "kyverno" kyvernoSpec ∈ (runMain envAllOk).1 ∧
    Call.installChart "weave-gitops" gitopsSpec ∈ (runMain envAllOk).1 := by
  refine ⟨?_, ?_, by decide, by decide, by decide, by decide, by decide⟩
  · intro env tr o ns s h hm
    have hs : (ns = "kyverno" ∧ s = kyvernoSpec) ∨ (ns = "weave-gitops" ∧ s = gitopsSpec) :=
      runMain_installShape h _ hm
    exact hs
  · intro env tr o ns s h hm
    have hs : (ns = "default" ∧ ∃ ip, s = ciliumSpec ip) ∨
        (ns = "rook-ceph" ∧ (s = rookOpSpec ∨ s = rookClusterSpec)) :=
      runMain_installShape h _ hm
    rcases hs with ⟨-, ip, rfl⟩ | ⟨-, rfl | rfl⟩
    · exact Or.inl rfl
    · exact Or.inr (Or.inl rfl)
    · exact Or.inr (Or.inr rfl)

/-- C6: for every discovered host address (over the IP-address alphabet),
the templated CNI chart value payload passed to the installer is the
template with the address spliced where the K8SHOST placeholder token stood:
it contains the address and no remaining occurrence of the token. -/
theorem c6_host_substitution : ∀ addr : String,
    (∀ c ∈ addr.data, c ∈ ipChars.data) →
    CiliumYaml.data = ciliumPre.data ++ ("K8SHOST" : String).data ++ ciliumSuf.data ∧
    (ciliumSpec addr).ValuesYaml.data = ciliumPre.data ++ addr.data ++ ciliumSuf.data ∧
    addr.data <:+: (ciliumSpec addr).ValuesYaml.data ∧
    ¬ (("K8SHOST" : String).data <:+: (ciliumSpec addr).ValuesYaml.data) := by
  intro addr hchars
  have heq : (ciliumSpec addr).ValuesYaml.data =
      ciliumPre.data ++ addr.data ++ ciliumSuf.data := rfl
  refine ⟨rfl, heq, ⟨ciliumPre.data, ciliumSuf.data, heq.symm⟩, ?_⟩
  intro hinf
  have hK : ('K' : Char) ∈ (ciliumSpec addr).ValuesYaml.data :=
    hinf.subset (by decide)
  rw [heq] at hK
  rcases List.mem_append.mp hK with hK2 | hK2
  · rcases List.mem_append.mp hK2 with hK3 | hK3
    · exact absurd hK3 (by decide)
    · exact absurd (hchars 'K' hK3) (by decide)
  · exact absurd hK2 (by decide)

/-- Witness for C6 at the stub address 10.0.0.5. -/
theorem c6_witness :
    CiliumYaml.data = ciliumPre.data ++ ("K8SHOST" : String).data ++ ciliumSuf.data ∧
    (ciliumSpec "10.0.0.5").ValuesYaml.data =
      ciliumPre.data ++ ("10.0.0.5" : String).data ++ ciliumSuf.data ∧
    ("10.0.0.5" : String).data <:+: (ciliumSpec "10.0.0.5").ValuesYaml.data ∧
    ¬ (("K8SHOST" : String).data <:+: (ciliumSpec "10.0.0.5").ValuesYaml.data) :=
  c6_host_substitution "10.0.0.5" (by decide)

/-- Counterexample to C7 as stated: with an existing but empty credentials
file the cache guard (length zero) never treats the blob as initialized, and
the full pipeline run reads the file four times — once per chart-installer
construction — not at most once. -/
theorem c7_counterexample :
    (runMain envEmptyKc).1.count (Call.readFile adminConfPath) = 4 ∧
    ¬ ((runMain envEmptyKc).1.count (Call.readFile adminConfPath) ≤ 1) := by
  refine ⟨by decide, by decide⟩

/-- C7 as amended: provided the credentials file holds a non-empty blob, the
file is read at most once in any run; after the first initialization the
cached blob is reused by every later chart-installer construction. -/
theorem c7_amended_read_once : ∀ (env : Env) (kc : String) (tr : List Call) (o : Outcome),
    env.readFile adminConfPath = Except.ok kc → kc ≠ "" →
    runMain env = (tr, o) → tr.count (Call.readFile adminConfPath) ≤ 1 := by
  intro env kc tr o hkc hne h
  have h0 : (runStages stages env initialSt).1 = tr := congrArg Prod.fst h
  rw [← h0]
  have hb := runStages_count (Call.readFile adminConfPath) kcPot stages env initialSt
    (fun s hs st1 tr1 r1 h1 => stagesReadBound hkc hne s hs st1 tr1 r1 h1)
  simpa [kcPot, initialSt] using hb

/-- Witness for C7 as amended: the all-success run with a non-empty blob
reads the file at most once. -/
theorem c7_witness :
    (runMain envAllOk).1.count (Call.readFile adminConfPath) ≤ 1 :=
  c7_amended_read_once envAllOk "apiVersion: v1" (runMain envAllOk).1 (runMain envAllOk).2
    rfl (by decide) rfl

/-- C8: a namespace-creation error — whatever its message, in particular an
already-exists conflict — makes each of the three namespace stages abort
fatally with its generic log line, with no remediation: the stage result is
the same function of the error for every error value. -/
theorem c8_ns_conflict_fatal : ∀ (env : Env) (st : St) (e : GoError),
    (env.createNamespace "kyverno" [] = some e →
      stKyvernoNs env st = ([Call.createNamespace "kyverno" []],
        StageRes.fatal ["Failed to create kyverno namespace: " ++ e])) ∧
    (env.createNamespace "rook-ceph" rookNsLabels = some e →
      stRookNs env st = ([Call.createNamespace "rook-ceph" rookNsLabels],
        StageRes.fatal ["Failed to create rook-ceph namespace: " ++ e])) ∧
    (env.createNamespace "weave-gitops" [] = some e →
      stGitopsNs env st = ([Call.createNamespace "weave-gitops" []],
        StageRes.fatal ["Failed to create weave-gitops namespace: " ++ e])) := by
  intro env st e
  refine ⟨?_, ?_, ?_⟩ <;> intro hc <;>
    simp [stKyvernoNs, stRookNs, stGitopsNs, nsStage, hc]

/-- C9: the Command Runner merges both output streams into the one captured
string (every write of either stream, in order), returns it together with an
error that is non-nil exactly for a launch failure or a non-zero exit, and
returns the captured string in the error cases too (the first component
equation holds unconditionally). -/
theorem c9_run_command :
    ∀ (sys : String → List String → ProcBehavior) (command : String) (args : List String),
      (RunCommandWith sys command args).1 = combinedOutput (sys command args) ∧
      ((RunCommandWith sys command args).2 ≠ none ↔
        ((sys command args).launch ≠ none ∨ (sys command args).exitCode ≠ 0)) := by
  intro sys command args
  constructor
  · cases hl : (sys command args).launch with
    | some e => simp [RunCommandWith, RunCommand, combinedOutput, hl]
    | none =>
      simp [RunCommandWith, RunCommand, combinedOutput, hl, String.join, List.foldl_map]
  · cases hl : (sys command args).launch with
    | some e => simp [RunCommandWith, RunCommand, hl]
    | none =>
      by_cases hex : (sys command args).exitCode = 0 <;>
        simp [RunCommandWith, RunCommand, hl, hex]

/-- C10: every install call of every run pairs the Cilium chart (target
namespace kube-system) with the client handle built for namespace default,
while every other chart goes through the handle built for its own target
namespace; and the all-success run indeed performs the Cilium
install-or-upgrade on the default handle. -/
theorem c10_cilium_handle :
    (∀ (env : Env) (tr : List Call) (o : Outcome) (ns : String) (s : ChartSpec),
      runMain env = (tr, o) →
      (Call.installOrUpgrade ns s ∈ tr ∨ Call.installChart ns s ∈ tr) →
      (s.ReleaseName = "cilium" → ns = "default" ∧ s.Namespace = "kube-system") ∧
      (s.ReleaseName ≠ "cilium" → ns = s.Namespace)) ∧
    Call.installOrUpgrade "default" (ciliumSpec "10.0.0.5") ∈ (runMain envAllOk).1 ∧
    (ciliumSpec "10.0.0.5").Namespace = "kube-system" ∧
    (ciliumSpec "10.0.0.5").ReleaseName = "cilium" := by
  refine ⟨?_, by decide, rfl, rfl⟩
  intro env tr o ns s h hm
  rcases hm with hm | hm
  · have hs : (ns = "default" ∧ ∃ ip, s = ciliumSpec ip) ∨
        (ns = "rook-ceph" ∧ (s = rookOpSpec ∨ s = rookClusterSpec)) :=
      runMain_installShape h _ hm
    rcases hs with ⟨rfl, ip, rfl⟩ | ⟨rfl, rfl | rfl⟩
    · exact ⟨fun _ => ⟨rfl, rfl⟩, fun hne => absurd rfl hne⟩
    · exact ⟨fun hc => absurd hc (by decide), fun _ => rfl⟩
    · exact ⟨fun hc => absurd hc (by decide), fun _ => rfl⟩
  · have hs : (ns = "kyverno" ∧ s = kyvernoSpec) ∨
        (ns = "weave-gitops" ∧ s = gitopsSpec) :=
      runMain_installShape h _ hm
    rcases hs with ⟨rfl, rfl⟩ | ⟨rfl, rfl⟩
    · exact ⟨fun hc => absurd hc (by decide), fun _ => rfl⟩
    · exact ⟨fun hc => absurd hc (by decide), fun _ => rfl⟩

end Orsted
